import Mathlib

/-!
Verification of the podsync-web update engine.

This file shallowly embeds the parts of the repository that the claims
concern: the Badger storage gateway (`pkg/db`), the feed-update pipeline
(`services/update`), the progress tracker (`pkg/progress`), the local
artifact store (`pkg/fs`), and the scheduler startup loop
(`cmd/podsync/main.go`).  Go strings are modelled as Lean `String`s
(`List Char` where byte-level operations matter), Go `int`/`int64` as `Int`,
`time.Time` as an `Int` tick count (`0` standing for the zero time), and Go
`float64` percentages as `ℚ`.
-/

namespace Podsync

/-! ## Data model (pkg/model) -/

/-- Episode status, a closed enumeration mirroring the `model.Episode*`
string constants. -/
inductive EpisodeStatus
  | new
  | queued
  | downloading
  | downloaded
  | err
  | cleaned
  | blocked
  | ignored
  deriving DecidableEq, Repr

/-- `model.Episode`: the durable per-episode record.  `pubDate` is the
published timestamp as a tick count; `size` and `duration` are `int64`. -/
structure Episode where
  id : String
  title : String
  description : String
  size : Int
  duration : Int
  pubDate : Int
  status : EpisodeStatus
  errMsg : String
  deriving DecidableEq, Repr

/-- `model.HistoryEntry`.  Job type, status and trigger are Go string
types, kept as strings ("feed_update", "running", "partial", ...). -/
structure HistoryEntry where
  id : String
  jobType : String
  feedID : String
  feedTitle : String
  episodeID : String
  episodeTitle : String
  startTime : Int
  endTime : Option Int
  duration : Int
  status : String
  triggerType : String
  errMsg : String
  deriving DecidableEq, Repr

/-- `model.HistoryFilters`.  Zero values (empty string, zero time `0`)
mean "filter not set", exactly as in the Go code's `!= ""` and
`!IsZero()` checks. -/
structure HistoryFilters where
  feedID : String := ""
  jobType : String := ""
  status : String := ""
  startDate : Int := 0
  endDate : Int := 0
  search : String := ""
  deriving DecidableEq, Repr

/-! ## Case-insensitive substring helpers (pkg/db, bottom of the Badger file) -/

/-- `toLower` on a single character: `if c >= 'A' && c <= 'Z' { return c + ('a'-'A') }`. -/
def toLowerByte (c : Char) : Char :=
  if 'A' ≤ c ∧ c ≤ 'Z' then Char.ofNat (c.toNat + 32) else c

/-- `simpleContains(s, substr)`: scans every window `s[i:i+len(substr)]`
for `0 ≤ i ≤ len(s)-len(substr)` and compares with `substr`. -/
def simpleContains (s substr : List Char) : Bool :=
  (List.range (s.length - substr.length + 1)).any fun i =>
    (s.drop i).take substr.length == substr

/-- `contains(s, substr)` from the Badger file, with Go's `&&`/`||`
precedence and short-circuiting preserved. -/
def containsStr (s substr : List Char) : Bool :=
  decide (substr.length ≤ s.length) &&
    (s == substr || substr.length == 0 ||
      ((decide (0 < s.length) &&
          (s.headI == substr.headI || toLowerByte s.headI == toLowerByte substr.headI)) &&
        (s.length == 0 || substr.length == 0 || simpleContains s substr)))

/-! ## `Badger.ListHistory` (pkg/db) -/

/-- The in-scan filter block of `Badger.ListHistory` (the five `if`
statements applied to each decoded entry).  Returns `true` when the entry
survives every filter. -/
def historyMatches (filters : HistoryFilters) (e : HistoryEntry) : Bool :=
  if filters.jobType != "" && e.jobType != filters.jobType then false
  else if filters.status != "" && e.status != filters.status then false
  else if filters.startDate != 0 && decide (e.startTime < filters.startDate) then false
  else if filters.endDate != 0 && decide (filters.endDate < e.startTime) then false
  else if filters.search != "" && e.episodeTitle != "" &&
      !containsStr e.episodeTitle.data filters.search.data then false
  else true

/-- One step of the `ListHistory` scan callback, acting on the
accumulator `(entries, total)`.  Mirrors the Go callback: non-matching
entries are skipped; `total` counts every match; matches with
`total <= skip` are skipped; every later match is appended.  The final
`if len(entries) >= pageSize { return nil }` in the source returns `nil`
either way, so it does not stop the scan and adds no truncation. -/
def listHistoryStep (filters : HistoryFilters) (skip : Int)
    (acc : List HistoryEntry × Int) (e : HistoryEntry) : List HistoryEntry × Int :=
  if !historyMatches filters e then acc
  else
    let total := acc.2 + 1
    if total ≤ skip then (acc.1, total)
    else (acc.1 ++ [e], total)

/-- The sequence of entries visited by the reverse scan.  The store is
the list of history entries in ascending key (= ID) order; a reverse
prefix scan visits it backwards.  When a feed filter is set the scan
runs over the `history_feed/<feedID>/` index, whose maintained content
is exactly the entries of that feed, dereferenced one by one. -/
def historyScanOrder (store : List HistoryEntry) (filters : HistoryFilters) :
    List HistoryEntry :=
  if filters.feedID != "" then
    (store.filter (fun e => e.feedID == filters.feedID)).reverse
  else store.reverse

/-- `Badger.ListHistory(filters, page, pageSize)`: returns the collected
entries and the total count of matching entries. -/
def ListHistory (store : List HistoryEntry) (filters : HistoryFilters)
    (page pageSize : Int) : List HistoryEntry × Int :=
  let skip := (page - 1) * pageSize
  (historyScanOrder store filters).foldl (listHistoryStep filters skip) ([], 0)

/-- Characterisation of the `ListHistory` fold: starting from
accumulator `acc`, the final total adds the number of matches, and the
collected list extends `acc.1` with all matches after the first
`skip - acc.2` of them.  Note there is no `pageSize` truncation. -/
theorem listHistory_foldl_spec (filters : HistoryFilters) (skip : Int)
    (l : List HistoryEntry) (acc : List HistoryEntry × Int) :
    l.foldl (listHistoryStep filters skip) acc =
      (acc.1 ++ (l.filter (historyMatches filters)).drop (skip - acc.2).toNat,
        acc.2 + (l.filter (historyMatches filters)).length) := by
  induction l generalizing acc with
  | nil => simp
  | cons e l ih =>
    by_cases hm : historyMatches filters e
    · by_cases hs : acc.2 + 1 ≤ skip
      · have h1 : (skip - acc.2).toNat = (skip - (acc.2 + 1)).toNat + 1 := by omega
        simp only [List.foldl_cons, listHistoryStep, hm, Bool.not_true, if_neg, hs, if_pos,
          Bool.false_eq_true, not_false_eq_true]
        rw [ih]
        simp [List.filter_cons, hm, h1]
        omega
      · have h1 : (skip - acc.2).toNat = 0 := by omega
        have h2 : (skip - (acc.2 + 1)).toNat = 0 := by omega
        simp only [List.foldl_cons, listHistoryStep, hm, Bool.not_true, if_neg, hs, if_neg,
          Bool.false_eq_true, not_false_eq_true]
        rw [ih]
        simp [List.filter_cons, hm, h1, h2]
        omega
    · have hm' : historyMatches filters e = false := by simpa using hm
      simp only [List.foldl_cons, listHistoryStep, hm']
      rw [ih]
      simp [List.filter_cons, hm']

/-- `ListHistory` in closed form: all matches (in reverse scan order)
beyond the skip are returned, with the total match count. -/
theorem ListHistory_eq (store : List HistoryEntry) (filters : HistoryFilters)
    (page pageSize : Int) :
    ListHistory store filters page pageSize =
      (((historyScanOrder store filters).filter (historyMatches filters)).drop
          ((page - 1) * pageSize).toNat,
        (((historyScanOrder store filters).filter (historyMatches filters)).length : Int)) := by
  unfold ListHistory
  rw [listHistory_foldl_spec]
  simp

/-- A concrete history store: 100 `feed_update` entries with ascending
IDs and ascending start times (entry `i` has ID `"1xx"` and start time
`i + 1`), listed in ascending key order. -/
def histEntryAt (i : Nat) : HistoryEntry :=
  { id := toString (100 + i), jobType := "feed_update", feedID := "f1",
    feedTitle := "Feed 1", episodeID := "", episodeTitle := "",
    startTime := (i : Int) + 1, endTime := none, duration := 0,
    status := "success", triggerType := "scheduled", errMsg := "" }

def historyStore100 : List HistoryEntry := (List.range 100).map histEntryAt

/-- With no filters set, every entry passes the filter block. -/
theorem historyMatches_default (e : HistoryEntry) : historyMatches {} e = true := by
  simp [historyMatches]

/-- C1: false on the code.  `ListHistory` never truncates the collected
page: the callback's final `if len(entries) >= pageSize` is followed by
`return nil`, which does not abort the scan, so with 100 stored entries
and no filters, `page=1, page_size=20` returns all 100 entries (the
total count of 100 is still correct).  The claim — and the comment in
the code itself ("Stop if we've collected enough for this page") —
promise at most `page_size` entries. -/
theorem c1_listHistory_page_not_truncated :
    (ListHistory historyStore100 {} 1 20).1.length = 100 ∧
      (ListHistory historyStore100 {} 1 20).2 = 100 ∧
      ¬((ListHistory historyStore100 {} 1 20).1.length ≤ 20) := by
  have hfilter :
      (historyScanOrder historyStore100 {}).filter (historyMatches {}) =
        historyScanOrder historyStore100 {} :=
    List.filter_eq_self.mpr fun e _ => historyMatches_default e
  have hres : ListHistory historyStore100 {} 1 20 =
      (historyScanOrder historyStore100 {}, 100) := by
    rw [ListHistory_eq, hfilter]
    simp [historyScanOrder, historyStore100]
  rw [hres]
  simp [historyScanOrder, historyStore100]

/-- C10: the title-substring search is applied only to entries with a
non-empty `episode_title`: any entry with an empty episode title that
passes the remaining filters passes the whole filter block, whatever the
search string is. -/
theorem c10_search_skips_empty_episode_title (filters : HistoryFilters)
    (e : HistoryEntry) (htitle : e.episodeTitle = "")
    (hothers : historyMatches { filters with search := "" } e = true) :
    historyMatches filters e = true := by
  simpa [historyMatches, htitle] using hothers

/-- C10 witness: a `feed_update` entry with an empty episode title
passes the filter block under a non-trivial search filter. -/
theorem c10_search_skips_empty_episode_title_witness :
    historyMatches { search := "podcast" } (histEntryAt 0) = true :=
  c10_search_skips_empty_episode_title { search := "podcast" } (histEntryAt 0)
    (by decide) (by decide)

/-! ## Scheduler startup (cmd/podsync/main.go, cron scheduler goroutine) -/

/-- The fields of `feed.Config` that the scheduler startup loop reads:
the optional explicit cron expression and the update period (whose
string form is spliced into the synthesised `@every` expression). -/
structure FeedSchedule where
  id : String
  cronSchedule : String
  updatePeriod : String
  deriving DecidableEq, Repr

/-- Per-feed work of the startup loop: compute
`hasExplicitCronSchedule`, synthesise `@every <period>` when no cron
expression is set, and decide the boot-time kick (the feed is pushed
onto the update queue immediately iff `!hasExplicitCronSchedule`).
Returns (registered cron expression, boot-kicked?). -/
def scheduleFeed (f : FeedSchedule) : String × Bool :=
  let hasExplicitCronSchedule := f.cronSchedule != ""
  let schedule :=
    if f.cronSchedule == "" then "@every " ++ f.updatePeriod else f.cronSchedule
  (schedule, !hasExplicitCronSchedule)

/-- The update-queue contents right after the startup loop, before any
cron entry fires: exactly the boot-kicked feeds in configuration
order. -/
def bootQueue (feeds : List FeedSchedule) : List FeedSchedule :=
  feeds.filter fun f => (scheduleFeed f).2

/-- C9: at scheduler startup a feed is enqueued immediately iff it has
no explicit cron expression; in that case the registered schedule is the
synthesised `@every <update_period>`, otherwise it is the explicit cron
expression (so such a feed sits only behind its cron entry and is never
boot-kicked). -/
theorem c9_boot_kick_iff_interval_mode (feeds : List FeedSchedule) (f : FeedSchedule) :
    (f ∈ bootQueue feeds ↔ f ∈ feeds ∧ f.cronSchedule = "") ∧
      (scheduleFeed f).1 =
        (if f.cronSchedule = "" then "@every " ++ f.updatePeriod else f.cronSchedule) := by
  constructor
  · constructor
    · intro hf
      rcases List.mem_filter.mp hf with ⟨hmem, hkick⟩
      refine ⟨hmem, ?_⟩
      by_contra hne
      simp [scheduleFeed, hne] at hkick
    · rintro ⟨hmem, hcron⟩
      exact List.mem_filter.mpr ⟨hmem, by simp [scheduleFeed, hcron]⟩
  · by_cases hcron : f.cronSchedule = "" <;> simp [scheduleFeed, hcron]

/-- C9 witness: with one interval feed and one cron feed, exactly the
interval feed is boot-kicked. -/
theorem c9_boot_kick_iff_interval_mode_witness :
    (⟨"a", "", "12h0m0s"⟩ ∈
        bootQueue [⟨"a", "", "12h0m0s"⟩, (⟨"b", "0 0 * * *", "24h0m0s"⟩ : FeedSchedule)] ↔
      (⟨"a", "", "12h0m0s"⟩ : FeedSchedule) ∈
          [⟨"a", "", "12h0m0s"⟩, (⟨"b", "0 0 * * *", "24h0m0s"⟩ : FeedSchedule)] ∧
        ("" : String) = "") := by
  have h := c9_boot_kick_iff_interval_mode
    [⟨"a", "", "12h0m0s"⟩, ⟨"b", "0 0 * * *", "24h0m0s"⟩] ⟨"a", "", "12h0m0s"⟩
  exact h.1

/-! ## Episode storage (pkg/db, feed-scoped `episode/<feedID>/` namespace) -/

/-- The episode records of one feed, in storage key order. -/
abbrev EpisodeTable := List Episode

/-- Key lookup (`getObj` on `episode/<feedID>/<episodeID>`). -/
def lookupEpisode (t : EpisodeTable) (id : String) : Option Episode :=
  t.find? fun e => e.id == id

/-- `Badger.UpdateEpisode`: read-modify-write of the record keyed by
`id` in one transaction.  (A missing key is a no-op here; the Go callers
relevant to the claims log the `NotFound` and move on.) -/
def UpdateEpisode (t : EpisodeTable) (id : String) (f : Episode → Episode) : EpisodeTable :=
  t.map fun e => if e.id == id then f e else e

/-- `Badger.DeleteEpisode`. -/
def DeleteEpisode (t : EpisodeTable) (id : String) : EpisodeTable :=
  t.filter fun e => !(e.id == id)

/-- One `setObj(episodeKey, episode, overwrite=false)` of `Badger.AddFeed`:
insert if the key is absent; an existing record is left untouched
(`ErrAlreadyExists` is swallowed by the caller). -/
def addEpisodeIfAbsent (t : EpisodeTable) (e : Episode) : EpisodeTable :=
  if (lookupEpisode t e.id).isSome then t else t ++ [e]

/-- The episode loop of `Badger.AddFeed`, in supplied order. -/
def AddFeedEpisodes (t : EpisodeTable) (es : List Episode) : EpisodeTable :=
  es.foldl addEpisodeIfAbsent t

/-- `model.Feed` as handed to `AddFeed`: the feed metadata plus the
supplied episode list. -/
structure Feed where
  title : String
  episodes : List Episode
  deriving DecidableEq, Repr

/-- The `feed/<feedID>` record plus the feed's episode namespace. -/
structure FeedStore where
  feedRecord : Option Feed
  episodes : EpisodeTable
  deriving DecidableEq, Repr

/-- `Badger.AddFeed(feedID, feed)`: one transaction that overwrites the
feed record (`setObj` with `overwrite=true`) and appends the supplied
episodes with insert-if-absent semantics. -/
def AddFeed (s : FeedStore) (feed : Feed) : FeedStore :=
  { feedRecord := some feed, episodes := AddFeedEpisodes s.episodes feed.episodes }

theorem lookupEpisode_append (t₁ t₂ : EpisodeTable) (id : String) :
    lookupEpisode (t₁ ++ t₂) id =
      (lookupEpisode t₁ id).or (lookupEpisode t₂ id) := by
  simp [lookupEpisode, List.find?_append]

theorem lookupEpisode_AddFeedEpisodes_of_some (t : EpisodeTable) (es : List Episode)
    {id : String} {v : Episode} (h : lookupEpisode t id = some v) :
    lookupEpisode (AddFeedEpisodes t es) id = some v := by
  induction es generalizing t with
  | nil => simpa [AddFeedEpisodes]
  | cons e es ih =>
    simp only [AddFeedEpisodes, List.foldl_cons]
    apply ih
    unfold addEpisodeIfAbsent
    split
    · exact h
    · rw [lookupEpisode_append, h]
      rfl

theorem lookupEpisode_AddFeedEpisodes_of_none (t : EpisodeTable) (es : List Episode)
    {id : String} (h : lookupEpisode t id = none) :
    lookupEpisode (AddFeedEpisodes t es) id = es.find? fun e => e.id == id := by
  induction es generalizing t with
  | nil => simpa [AddFeedEpisodes]
  | cons e es ih =>
    simp only [AddFeedEpisodes, List.foldl_cons, List.find?_cons]
    by_cases hid : e.id == id
    · have habsent : (lookupEpisode t e.id).isSome = false := by
        rw [show e.id = id from by simpa using hid, h]
        rfl
      have hsome : lookupEpisode (addEpisodeIfAbsent t e) id = some e := by
        unfold addEpisodeIfAbsent
        rw [habsent]
        simp only [Bool.false_eq_true, if_neg, not_false_eq_true]
        rw [lookupEpisode_append, h]
        simp [lookupEpisode, List.find?_cons, hid]
      rw [hid]
      exact lookupEpisode_AddFeedEpisodes_of_some _ _ hsome
    · have hnone : lookupEpisode (addEpisodeIfAbsent t e) id = none := by
        unfold addEpisodeIfAbsent
        split
        · exact h
        · rw [lookupEpisode_append, h]
          simp [lookupEpisode, List.find?_cons, hid]
      rw [Bool.of_not_eq_true hid]
      exact ih _ hnone

theorem lookupEpisode_AddFeedEpisodes_of_not_mem (t : EpisodeTable) (es : List Episode)
    {id : String} (h : ∀ e ∈ es, e.id ≠ id) :
    lookupEpisode (AddFeedEpisodes t es) id = lookupEpisode t id := by
  cases hv : lookupEpisode t id with
  | some v => exact lookupEpisode_AddFeedEpisodes_of_some t es hv
  | none =>
    rw [lookupEpisode_AddFeedEpisodes_of_none t es hv]
    rw [List.find?_eq_none.mpr]
    intro e he
    simpa using h e he

/-- C6: `AddFeed` overwrites the feed record; every supplied episode
whose key already exists leaves the stored record unchanged; supplied
episodes with fresh keys are inserted (the first supplied record for
each key); keys not mentioned by the supplied list are untouched — all
within the single transaction modelled by the one function `AddFeed`. -/
theorem c6_AddFeed_insert_if_absent (s : FeedStore) (feed : Feed) :
    (AddFeed s feed).feedRecord = some feed ∧
      (∀ e ∈ feed.episodes, ∀ old, lookupEpisode s.episodes e.id = some old →
        lookupEpisode (AddFeed s feed).episodes e.id = some old) ∧
      (∀ e ∈ feed.episodes, lookupEpisode s.episodes e.id = none →
        lookupEpisode (AddFeed s feed).episodes e.id =
            feed.episodes.find? (fun x => x.id == e.id) ∧
          (lookupEpisode (AddFeed s feed).episodes e.id).isSome) ∧
      (∀ id, (∀ e ∈ feed.episodes, e.id ≠ id) →
        lookupEpisode (AddFeed s feed).episodes id = lookupEpisode s.episodes id) := by
  refine ⟨rfl, ?_, ?_, ?_⟩
  · intro e _ old hold
    exact lookupEpisode_AddFeedEpisodes_of_some _ _ hold
  · intro e he hnone
    have hfind : lookupEpisode (AddFeed s feed).episodes e.id =
        feed.episodes.find? (fun x => x.id == e.id) :=
      lookupEpisode_AddFeedEpisodes_of_none s.episodes feed.episodes hnone
    refine ⟨hfind, ?_⟩
    rw [hfind, List.find?_isSome]
    exact ⟨e, he, by simp⟩
  · intro id hid
    exact lookupEpisode_AddFeedEpisodes_of_not_mem _ _ hid

/-- Episodes used by concrete witnesses. -/
def mkEpisode (id : String) (title : String) (pubDate : Int)
    (status : EpisodeStatus) : Episode :=
  { id := id, title := title, description := "", size := 0, duration := 0,
    pubDate := pubDate, status := status, errMsg := "" }

/-- C6 witness: adding a feed whose list carries a changed copy of an
existing episode `e1` and a fresh episode `e2` keeps the stored `e1`
record byte-for-byte and inserts `e2`. -/
theorem c6_AddFeed_insert_if_absent_witness :
    lookupEpisode (AddFeed ⟨none, [mkEpisode "e1" "stored" 1 .downloaded]⟩
        ⟨"F", [mkEpisode "e1" "fetched" 1 .new, mkEpisode "e2" "fresh" 2 .new]⟩).episodes
        "e1" = some (mkEpisode "e1" "stored" 1 .downloaded) ∧
      lookupEpisode (AddFeed ⟨none, [mkEpisode "e1" "stored" 1 .downloaded]⟩
        ⟨"F", [mkEpisode "e1" "fetched" 1 .new, mkEpisode "e2" "fresh" 2 .new]⟩).episodes
        "e2" = some (mkEpisode "e2" "fresh" 2 .new) := by
  have h := c6_AddFeed_insert_if_absent ⟨none, [mkEpisode "e1" "stored" 1 .downloaded]⟩
    ⟨"F", [mkEpisode "e1" "fetched" 1 .new, mkEpisode "e2" "fresh" 2 .new]⟩
  refine ⟨h.2.1 (mkEpisode "e1" "fetched" 1 .new) (by decide)
    (mkEpisode "e1" "stored" 1 .downloaded) (by decide), ?_⟩
  have h2 := (h.2.2.1 (mkEpisode "e2" "fresh" 2 .new) (by decide) (by decide)).1
  exact h2.trans (by decide)

/-! ## Stage 1 reconciliation (`Manager.updateFeed`, services/update) -/

/-- `blockedEpisodes`: IDs of stored episodes with `status == blocked`,
collected during the `WalkEpisodes` scan. -/
def reconcileBlockedIDs (t : EpisodeTable) : List String :=
  (t.filter fun e => e.status == EpisodeStatus.blocked).map (·.id)

/-- `episodeSet`: IDs collected by the scan's `else if` branch — any
stored episode that is not blocked, not downloaded and not cleaned. -/
def reconcileEpisodeSet (t : EpisodeTable) : List String :=
  (t.filter fun e =>
    !(e.status == EpisodeStatus.blocked) && !(e.status == EpisodeStatus.downloaded) &&
      !(e.status == EpisodeStatus.cleaned)).map (·.id)

/-- `filteredEpisodes`: the fetched listing minus blocked IDs,
as passed to `AddFeed`. -/
def reconcileFilteredEpisodes (t : EpisodeTable) (fetched : List Episode) : List Episode :=
  fetched.filter fun e => !((reconcileBlockedIDs t).contains e.id)

/-- The IDs left in `episodeSet` after `delete(episodeSet, episode.ID)`
for every episode of the filtered listing: these get removed. -/
def reconcileRemoval (t : EpisodeTable) (fetched : List Episode) : List String :=
  (reconcileEpisodeSet t).filter fun id =>
    !((reconcileFilteredEpisodes t fetched).any fun e => e.id == id)

/-- The reconciliation step of `Manager.updateFeed` on one feed's
episode table: filter blocked IDs out of the fetched listing, `AddFeed`
the rest (insert-if-absent), then delete every leftover `episodeSet`
ID. -/
def updateFeedReconcile (t : EpisodeTable) (fetched : List Episode) : EpisodeTable :=
  (reconcileRemoval t fetched).foldl DeleteEpisode
    (AddFeedEpisodes t (reconcileFilteredEpisodes t fetched))

theorem lookupEpisode_cons (e : Episode) (t : EpisodeTable) (id : String) :
    lookupEpisode (e :: t) id = if e.id == id then some e else lookupEpisode t id := by
  cases h : e.id == id <;> simp [lookupEpisode, List.find?_cons, h]

theorem lookupEpisode_DeleteEpisode (t : EpisodeTable) (d id : String) :
    lookupEpisode (DeleteEpisode t d) id = if id = d then none else lookupEpisode t id := by
  induction t with
  | nil => simp [DeleteEpisode, lookupEpisode]
  | cons e t ih =>
    by_cases hed : e.id = d
    · have h1 : DeleteEpisode (e :: t) d = DeleteEpisode t d := by
        simp [DeleteEpisode, List.filter_cons, hed]
      rw [h1, ih]
      by_cases hid : id = d
      · simp [hid]
      · have hne : (e.id == id) = false :=
          beq_eq_false_iff_ne.mpr (by rw [hed]; exact fun h => hid h.symm)
        simp [hid, lookupEpisode_cons, hne]
    · have h1 : DeleteEpisode (e :: t) d = e :: DeleteEpisode t d := by
        simp [DeleteEpisode, List.filter_cons, hed]
      by_cases heid : e.id = id
      · have hidd : ¬id = d := fun h => hed (heid.symm ▸ h)
        simp [h1, lookupEpisode_cons, heid, hidd]
      · have hne : (e.id == id) = false := beq_eq_false_iff_ne.mpr heid
        simp [h1, lookupEpisode_cons, hne, ih]

theorem lookupEpisode_foldl_DeleteEpisode (ids : List String) (t : EpisodeTable)
    (id : String) :
    lookupEpisode (ids.foldl DeleteEpisode t) id =
      if id ∈ ids then none else lookupEpisode t id := by
  induction ids generalizing t with
  | nil => simp
  | cons d ids ih =>
    simp only [List.foldl_cons]
    rw [ih]
    by_cases hmem : id ∈ ids
    · simp [hmem]
    · rw [lookupEpisode_DeleteEpisode]
      by_cases hd : id = d <;> simp [hd, hmem]

theorem lookupEpisode_of_mem_nodup {t : EpisodeTable} (hids : (t.map (·.id)).Nodup)
    {e : Episode} (he : e ∈ t) : lookupEpisode t e.id = some e := by
  induction t with
  | nil => cases he
  | cons x t ih =>
    rw [List.map_cons, List.nodup_cons] at hids
    rcases List.mem_cons.mp he with rfl | hmem
    · simp [lookupEpisode, List.find?_cons]
    · have hx : (x.id == e.id) = false := by
        refine beq_eq_false_iff_ne.mpr fun hxe => hids.1 ?_
        exact hxe ▸ List.mem_map.mpr ⟨e, hmem, rfl⟩
      have ht := ih hids.2 hmem
      simp [lookupEpisode, List.find?_cons, hx] at ht ⊢
      exact ht

/-- With duplicate-free IDs, membership of `e.id` in the IDs of a
filtered sublist of `t` is decided by the predicate at `e` itself. -/
theorem mem_filter_map_id {t : EpisodeTable} (p : Episode → Bool)
    (hids : (t.map (·.id)).Nodup) {e : Episode} (he : e ∈ t) :
    e.id ∈ (t.filter p).map (·.id) ↔ p e = true := by
  constructor
  · intro h
    rcases List.mem_map.mp h with ⟨x, hx, hxe⟩
    rcases List.mem_filter.mp hx with ⟨hxt, hpx⟩
    rwa [List.inj_on_of_nodup_map hids hxt he hxe] at hpx
  · intro hp
    exact List.mem_map.mpr ⟨e, List.mem_filter.mpr ⟨he, hp⟩, rfl⟩

theorem mem_reconcileRemoval (t : EpisodeTable) (fetched : List Episode) (id : String) :
    id ∈ reconcileRemoval t fetched ↔
      id ∈ reconcileEpisodeSet t ∧
        ∀ x ∈ reconcileFilteredEpisodes t fetched, x.id ≠ id := by
  simp [reconcileRemoval, List.mem_filter]

/-- The exact effect of the reconciliation on a stored episode: its
record is deleted iff its status is outside `{blocked, downloaded,
cleaned}` and no fetched episode carries its ID; otherwise the record is
returned unchanged. -/
theorem updateFeedReconcile_lookup (t : EpisodeTable) (fetched : List Episode)
    (hids : (t.map (·.id)).Nodup) (e : Episode) (he : e ∈ t) :
    lookupEpisode (updateFeedReconcile t fetched) e.id =
      if e.status ≠ EpisodeStatus.blocked ∧ e.status ≠ EpisodeStatus.downloaded ∧
          e.status ≠ EpisodeStatus.cleaned ∧ ∀ x ∈ fetched, x.id ≠ e.id
      then none else some e := by
  have hte : lookupEpisode t e.id = some e := lookupEpisode_of_mem_nodup hids he
  have ht1 : lookupEpisode (AddFeedEpisodes t (reconcileFilteredEpisodes t fetched)) e.id
      = some e := lookupEpisode_AddFeedEpisodes_of_some _ _ hte
  unfold updateFeedReconcile
  rw [lookupEpisode_foldl_DeleteEpisode, ht1]
  have hset : e.id ∈ reconcileEpisodeSet t ↔
      (e.status ≠ EpisodeStatus.blocked ∧ e.status ≠ EpisodeStatus.downloaded ∧
        e.status ≠ EpisodeStatus.cleaned) := by
    rw [reconcileEpisodeSet, mem_filter_map_id _ hids he]
    simp [and_assoc]
  by_cases hstat : e.status ≠ EpisodeStatus.blocked ∧ e.status ≠ EpisodeStatus.downloaded ∧
      e.status ≠ EpisodeStatus.cleaned
  · have heb : e.id ∉ reconcileBlockedIDs t := by
      rw [reconcileBlockedIDs]
      rw [mem_filter_map_id _ hids he]
      simp [hstat.1]
    have hfe : (∀ x ∈ reconcileFilteredEpisodes t fetched, x.id ≠ e.id) ↔
        ∀ x ∈ fetched, x.id ≠ e.id := by
      constructor
      · intro h x hx hxe
        refine h x ?_ hxe
        refine List.mem_filter.mpr ⟨hx, ?_⟩
        rw [hxe]
        simp [heb]
      · intro h x hx
        exact h x (List.mem_filter.mp hx).1
    by_cases habs : ∀ x ∈ fetched, x.id ≠ e.id
    · rw [if_pos ((mem_reconcileRemoval t fetched e.id).mpr ⟨hset.mpr hstat, hfe.mpr habs⟩),
        if_pos ⟨hstat.1, hstat.2.1, hstat.2.2, habs⟩]
    · rw [if_neg fun hm => habs (hfe.mp ((mem_reconcileRemoval t fetched e.id).mp hm).2),
        if_neg fun hc => habs hc.2.2.2]
  · rw [if_neg fun hm => hstat (hset.mp ((mem_reconcileRemoval t fetched e.id).mp hm).1),
      if_neg fun hc => hstat ⟨hc.1, hc.2.1, hc.2.2.1⟩]

/-- C3 counterexample: a stored episode with status `ignored` (neither
`new` nor `error`) that is absent from the fetched listing is deleted by
the reconciliation, contradicting the claim that only `new`/`error`
episodes are removed and that `ignored` ones are preserved. -/
theorem c3_counterexample_ignored_deleted :
    updateFeedReconcile [mkEpisode "x" "t" 0 .ignored] [] = [] ∧
      (mkEpisode "x" "t" 0 .ignored).status ≠ EpisodeStatus.new ∧
      (mkEpisode "x" "t" 0 .ignored).status ≠ EpisodeStatus.err := by
  decide

/-- C3 (amended): the reconciliation deletes a stored episode iff its
status is outside the preserved set `{blocked, downloaded, cleaned}` —
i.e. `new`, `error`, and also `queued`, `downloading`, `ignored` — and
its ID is absent from the fetched listing; episodes with a preserved
status, or still present upstream, keep their records unchanged. -/
theorem c3_reconcile_deletes_nonpreserved_absent (t : EpisodeTable)
    (fetched : List Episode) (hids : (t.map (·.id)).Nodup) (e : Episode) (he : e ∈ t) :
    lookupEpisode (updateFeedReconcile t fetched) e.id =
      if e.status ≠ EpisodeStatus.blocked ∧ e.status ≠ EpisodeStatus.downloaded ∧
          e.status ≠ EpisodeStatus.cleaned ∧ ∀ x ∈ fetched, x.id ≠ e.id
      then none else some e :=
  updateFeedReconcile_lookup t fetched hids e he

/-- C3 witness: a stale `new` episode is deleted while a `downloaded`
one is preserved. -/
theorem c3_reconcile_deletes_nonpreserved_absent_witness :
    lookupEpisode (updateFeedReconcile
        [mkEpisode "a" "ta" 1 .new, mkEpisode "b" "tb" 2 .downloaded] []) "a" = none := by
  have h := c3_reconcile_deletes_nonpreserved_absent
    [mkEpisode "a" "ta" 1 .new, mkEpisode "b" "tb" 2 .downloaded] []
    (by decide) (mkEpisode "a" "ta" 1 .new) (by decide)
  rw [if_pos (by decide)] at h
  exact h

/-- C5: a blocked episode's record survives every reconciliation
unchanged — whatever the fetched listing contains, including an episode
with the very same ID (which is filtered out before `AddFeed`). -/
theorem c5_blocked_sticky (t : EpisodeTable) (fetched : List Episode)
    (hids : (t.map (·.id)).Nodup) (e : Episode) (he : e ∈ t)
    (hb : e.status = EpisodeStatus.blocked) :
    lookupEpisode (updateFeedReconcile t fetched) e.id = some e := by
  rw [updateFeedReconcile_lookup t fetched hids e he,
    if_neg fun hc => hc.1 hb]

/-- C5 witness: a blocked episode survives a listing that still
contains its ID. -/
theorem c5_blocked_sticky_witness :
    lookupEpisode (updateFeedReconcile [mkEpisode "a" "ta" 1 .blocked]
        [mkEpisode "a" "fresh" 9 .new]) "a" = some (mkEpisode "a" "ta" 1 .blocked) :=
  c5_blocked_sticky [mkEpisode "a" "ta" 1 .blocked] [mkEpisode "a" "fresh" 9 .new]
    (by decide) (mkEpisode "a" "ta" 1 .blocked) (by decide) (by decide)

/-! ## Artifact store contents and Stage 4 cleanup (`Manager.cleanup`) -/

/-- The artifact store contents: `(path, size)` pairs in creation order. -/
abbrev Artifacts := List (String × Int)

/-- `fs.Size(path)`: `none` models the `NotExist` error. -/
def artifactSize (fsa : Artifacts) (path : String) : Option Int :=
  (fsa.find? fun p => p.1 == path).map (·.2)

/-- `fs.Delete(path)`: removes the path; deleting a missing path
surfaces `NotExist`, which `cleanup` treats as success. -/
def deleteArtifact (fsa : Artifacts) (path : String) : Artifacts :=
  fsa.filter fun p => !(p.1 == path)

/-- `feed.Cleanup`: the per-feed cleanup policy (`keep_last`). -/
structure CleanupPolicy where
  keepLast : Int
  deriving DecidableEq, Repr

/-- The artifact path `<feedID>/<episodeName>`; `name` abstracts
`feed.EpisodeName(feedConfig, episode)` as a function of the episode ID. -/
def artifactPath (feedID : String) (name : String → String) (id : String) : String :=
  feedID ++ "/" ++ name id

/-- The record mutation applied to cleaned episodes: `status=cleaned`,
`title=""`, `description=""`. -/
def cleanMut (e : Episode) : Episode :=
  { e with status := EpisodeStatus.cleaned, title := "", description := "" }

/-- One iteration of the cleanup loop: delete the artifact (`NotExist`
ignored) and rewrite the episode record with `cleanMut`. -/
def cleanupEpisode (feedID : String) (name : String → String)
    (s : EpisodeTable × Artifacts) (ep : Episode) : EpisodeTable × Artifacts :=
  (UpdateEpisode s.1 ep.id cleanMut,
    deleteArtifact s.2 (artifactPath feedID name ep.id))

/-- The `sort.Slice` comparator, published timestamp descending (made
non-strict so the order is total; on the pairwise-distinct timestamps
the theorems assume, the arrangement coincides with the Go sort's). -/
def byPubDateDesc (a b : Episode) : Prop := b.pubDate ≤ a.pubDate

instance : DecidableRel byPubDateDesc := fun a b => Int.decLe b.pubDate a.pubDate

instance : IsTotal Episode byPubDateDesc :=
  ⟨fun a b => le_total b.pubDate a.pubDate⟩

instance : IsTrans Episode byPubDateDesc :=
  ⟨fun _ _ _ hab hbc => le_trans hbc hab⟩

/-- `Manager.cleanup` on one feed: no policy or `keep_last < 1` is a
no-op; otherwise collect the downloaded episodes, return unless more
than `keep_last` of them exist, sort by published timestamp descending
and clean everything past the first `keep_last`. -/
def cleanup (clean : Option CleanupPolicy) (feedID : String) (name : String → String)
    (t : EpisodeTable) (fsa : Artifacts) : EpisodeTable × Artifacts :=
  match clean with
  | none => (t, fsa)
  | some c =>
    if c.keepLast < 1 then (t, fsa)
    else if c.keepLast >
        ((t.filter fun e => e.status == EpisodeStatus.downloaded).length : Int) then
      (t, fsa)
    else
      ((List.insertionSort byPubDateDesc
            (t.filter fun e => e.status == EpisodeStatus.downloaded)).drop
          c.keepLast.toNat).foldl (cleanupEpisode feedID name) (t, fsa)

theorem lookupEpisode_UpdateEpisode (t : EpisodeTable) (id id' : String)
    (f : Episode → Episode) (hf : ∀ e, (f e).id = e.id) :
    lookupEpisode (UpdateEpisode t id f) id' =
      if id = id' then (lookupEpisode t id').map f else lookupEpisode t id' := by
  induction t with
  | nil => by_cases h : id = id' <;> simp [UpdateEpisode, lookupEpisode, h]
  | cons e t ih =>
    by_cases hei : e.id = id
    · have hcons : UpdateEpisode (e :: t) id f = f e :: UpdateEpisode t id f := by
        simp [UpdateEpisode, hei]
      rw [hcons, lookupEpisode_cons, lookupEpisode_cons, hf e, ih]
      by_cases hii : id = id'
      · have hbeq : (e.id == id') = true := by rw [hei, hii]; exact beq_self_eq_true id'
        simp [hbeq, hii]
      · have hbeq : (e.id == id') = false :=
          beq_eq_false_iff_ne.mpr (by rw [hei]; exact hii)
        simp [hbeq, hii]
    · have hcons : UpdateEpisode (e :: t) id f = e :: UpdateEpisode t id f := by
        simp [UpdateEpisode, hei]
      rw [hcons, lookupEpisode_cons, lookupEpisode_cons, ih]
      by_cases hei' : e.id = id'
      · have hii : ¬id = id' := fun h => hei (h ▸ hei')
        simp [hei', hii]
      · have hbeq : (e.id == id') = false := beq_eq_false_iff_ne.mpr hei'
        simp [hbeq]

theorem cleanMut_id (e : Episode) : (cleanMut e).id = e.id := rfl

theorem cleanMut_idem (e : Episode) : cleanMut (cleanMut e) = cleanMut e := rfl

/-- Episode records after the cleanup fold: a record is rewritten with
`cleanMut` iff its ID occurs in the processed list. -/
theorem lookup_foldl_cleanupEpisode (feedID : String) (name : String → String)
    (eps : List Episode) (s : EpisodeTable × Artifacts) (id : String) :
    lookupEpisode (eps.foldl (cleanupEpisode feedID name) s).1 id =
      if eps.any (fun x => x.id == id) then (lookupEpisode s.1 id).map cleanMut
      else lookupEpisode s.1 id := by
  induction eps generalizing s with
  | nil => simp
  | cons x eps ih =>
    simp only [List.foldl_cons, List.any_cons]
    rw [ih]
    by_cases hx : x.id = id
    · have hl : lookupEpisode (cleanupEpisode feedID name s x).1 id =
          (lookupEpisode s.1 id).map cleanMut := by
        rw [cleanupEpisode, lookupEpisode_UpdateEpisode _ _ _ _ cleanMut_id, if_pos hx]
      have hdouble : ((lookupEpisode s.1 id).map cleanMut).map cleanMut =
          (lookupEpisode s.1 id).map cleanMut := by
        rw [Option.map_map]
        exact congrArg (fun g => Option.map g (lookupEpisode s.1 id)) (funext cleanMut_idem)
      have hcond : (x.id == id || eps.any fun x => x.id == id) = true := by simp [hx]
      rw [hl]
      by_cases hany : (eps.any fun x => x.id == id) = true
      · simp [hany, hcond, hdouble]
      · simp [hany, hcond, hx]
    · have hl : lookupEpisode (cleanupEpisode feedID name s x).1 id =
          lookupEpisode s.1 id := by
        rw [cleanupEpisode, lookupEpisode_UpdateEpisode _ _ _ _ cleanMut_id, if_neg hx]
      have hcond : (x.id == id || eps.any fun x => x.id == id) =
          (eps.any fun x => x.id == id) := by
        simp [beq_eq_false_iff_ne.mpr hx]
      rw [hl]
      simp only [hcond]

/-- Artifacts after the cleanup fold: exactly the paths of the
processed episodes are removed. -/
theorem snd_foldl_cleanupEpisode (feedID : String) (name : String → String)
    (eps : List Episode) (s : EpisodeTable × Artifacts) :
    (eps.foldl (cleanupEpisode feedID name) s).2 =
      s.2.filter fun p => !(eps.any fun x => artifactPath feedID name x.id == p.1) := by
  induction eps generalizing s with
  | nil => simp
  | cons x eps ih =>
    simp only [List.foldl_cons]
    rw [ih]
    show (deleteArtifact s.2 (artifactPath feedID name x.id)).filter _ = _
    rw [deleteArtifact, List.filter_filter]
    apply List.filter_congr
    intro p _
    by_cases hp : artifactPath feedID name x.id = p.1
    · simp [List.any_cons, hp]
    · have h1 : (p.1 == artifactPath feedID name x.id) = false :=
        beq_eq_false_iff_ne.mpr (Ne.symm hp)
      have h2 : (artifactPath feedID name x.id == p.1) = false :=
        beq_eq_false_iff_ne.mpr hp
      simp [List.any_cons, h1, h2]

/-- For a timestamp-descending, timestamp-duplicate-free list, an
element lies beyond position `N` iff at least `N` of the list's
elements have a strictly newer published timestamp. -/
theorem mem_drop_sorted_iff (s : List Episode) (hs : List.Sorted byPubDateDesc s)
    (hd : (s.map (·.pubDate)).Nodup) (N : Nat) (e : Episode) :
    e ∈ s.drop N ↔
      e ∈ s ∧ N ≤ s.countP fun x => decide (e.pubDate < x.pubDate) := by
  induction s generalizing N with
  | nil => simp
  | cons x s ih =>
    rw [List.sorted_cons] at hs
    rw [List.map_cons, List.nodup_cons] at hd
    cases N with
    | zero => simp
    | succ N =>
      rw [List.drop_succ_cons, ih hs.2 hd.2 N]
      by_cases hex : e = x
      · subst hex
        have hmem : e ∉ s := fun hm => hd.1 (List.mem_map.mpr ⟨e, hm, rfl⟩)
        have hcount : (List.countP (fun y => decide (e.pubDate < y.pubDate)) s) = 0 := by
          rw [List.countP_eq_zero]
          intro y hys
          have h1 : y.pubDate ≤ e.pubDate := hs.1 y hys
          simp
          omega
        simp [hmem, hcount, List.countP_cons]
      · by_cases hes : e ∈ s
        · have h1 : e.pubDate ≤ x.pubDate := hs.1 e hes
          have h2 : e.pubDate ≠ x.pubDate :=
            fun h => hd.1 (h ▸ List.mem_map.mpr ⟨e, hes, rfl⟩)
          have hpx : (decide (e.pubDate < x.pubDate)) = true := by
            simp
            omega
          constructor
          · rintro ⟨_, hc⟩
            refine ⟨List.mem_cons_of_mem _ hes, ?_⟩
            rw [List.countP_cons, hpx]
            simp
            omega
          · rintro ⟨_, hc⟩
            rw [List.countP_cons, hpx] at hc
            simp at hc
            exact ⟨hes, by omega⟩
        · simp [hes, hex]

/-- C7: with `keep_last = N ≥ 1` (pairwise-distinct published
timestamps among the downloaded episodes, duplicate-free IDs), the
cleanup stage rewrites exactly the downloaded episodes that have at
least `N` strictly-newer downloaded episodes — i.e. those ranked after
the `N`-th in the timestamp-descending order: their records become
`cleaned` with cleared title and description, and their artifact paths
disappear from the store (a missing artifact is fine).  Every other
record is unchanged, and with `keep_last = 0` or no policy at all the
stage is a no-op. -/
theorem c7_cleanup_keep_last (feedID : String) (name : String → String)
    (t : EpisodeTable) (fsa : Artifacts) (N : Int)
    (hids : (t.map (·.id)).Nodup)
    (hpub : ((t.filter fun e => e.status == EpisodeStatus.downloaded).map
        (·.pubDate)).Nodup)
    (hN : 1 ≤ N) :
    (∀ e ∈ t,
        lookupEpisode (cleanup (some ⟨N⟩) feedID name t fsa).1 e.id =
          if e.status = EpisodeStatus.downloaded ∧
              N ≤ (((t.filter fun x => x.status == EpisodeStatus.downloaded).countP
                  fun x => decide (e.pubDate < x.pubDate)) : Int)
          then some (cleanMut e) else some e) ∧
      (∀ e ∈ t, e.status = EpisodeStatus.downloaded →
        N ≤ (((t.filter fun x => x.status == EpisodeStatus.downloaded).countP
            fun x => decide (e.pubDate < x.pubDate)) : Int) →
        artifactSize (cleanup (some ⟨N⟩) feedID name t fsa).2
          (artifactPath feedID name e.id) = none) ∧
      cleanup none feedID name t fsa = (t, fsa) ∧
      cleanup (some ⟨0⟩) feedID name t fsa = (t, fsa) := by
  have hnotlt : ¬(N < 1) := by omega
  set list := t.filter fun e => e.status == EpisodeStatus.downloaded with hlist_def
  set sorted := List.insertionSort byPubDateDesc list with hsorted_def
  have hperm : sorted.Perm list := List.perm_insertionSort byPubDateDesc list
  have hsorted : List.Sorted byPubDateDesc sorted :=
    List.sorted_insertionSort byPubDateDesc list
  have hpub' : (sorted.map (·.pubDate)).Nodup :=
    ((hperm.map (·.pubDate)).nodup_iff).mpr hpub
  have hmemc : ∀ e ∈ t, (e ∈ sorted.drop N.toNat ↔
      (e.status = EpisodeStatus.downloaded ∧
        N ≤ ((list.countP fun x => decide (e.pubDate < x.pubDate)) : Int))) := by
    intro e he
    rw [mem_drop_sorted_iff sorted hsorted hpub' N.toNat e, hperm.mem_iff,
      hperm.countP_eq]
    constructor
    · rintro ⟨hmem, hc⟩
      have hdl : e.status == EpisodeStatus.downloaded := (List.mem_filter.mp hmem).2
      exact ⟨by simpa using hdl, by omega⟩
    · rintro ⟨hdl, hc⟩
      exact ⟨List.mem_filter.mpr ⟨he, by simp [hdl]⟩, by omega⟩
  by_cases hbig : N > (list.length : Int)
  · have hres : cleanup (some ⟨N⟩) feedID name t fsa = (t, fsa) := by
      simp only [cleanup]
      rw [if_neg hnotlt, if_pos hbig]
    have hcontra : ∀ e ∈ t, e.status = EpisodeStatus.downloaded →
        ¬(N ≤ ((list.countP fun x => decide (e.pubDate < x.pubDate)) : Int)) := by
      intro e he hdl hc
      have hself : e ∈ list := List.mem_filter.mpr ⟨he, by simp [hdl]⟩
      have hlt : (list.countP fun x => decide (e.pubDate < x.pubDate)) < list.length := by
        rw [List.countP_eq_length_filter]
        exact List.length_filter_lt_length_iff_exists.mpr ⟨e, hself, by simp⟩
      omega
    refine ⟨?_, ?_, rfl, by simp [cleanup]⟩
    · intro e he
      rw [hres]
      rw [if_neg fun hcnd => hcontra e he hcnd.1 hcnd.2]
      exact lookupEpisode_of_mem_nodup hids he
    · intro e he hdl hc
      exact absurd hc (hcontra e he hdl)
  · have hres : cleanup (some ⟨N⟩) feedID name t fsa =
        (sorted.drop N.toNat).foldl (cleanupEpisode feedID name) (t, fsa) := by
      simp only [cleanup]
      rw [if_neg hnotlt, if_neg hbig]
    have hany : ∀ e ∈ t,
        (((sorted.drop N.toNat).any fun x => x.id == e.id) = true ↔
          e ∈ sorted.drop N.toNat) := by
      intro e he
      constructor
      · intro h
        rcases List.any_eq_true.mp h with ⟨x, hx, hxe⟩
        have hxt : x ∈ t :=
          (List.mem_filter.mp (hperm.mem_iff.mp (List.mem_of_mem_drop hx))).1
        have hx_eq : x = e :=
          List.inj_on_of_nodup_map hids hxt he (by simpa using hxe)
        rwa [hx_eq] at hx
      · intro h
        exact List.any_eq_true.mpr ⟨e, h, by simp⟩
    refine ⟨?_, ?_, rfl, by simp [cleanup]⟩
    · intro e he
      rw [hres, lookup_foldl_cleanupEpisode, lookupEpisode_of_mem_nodup hids he]
      by_cases hcond : e.status = EpisodeStatus.downloaded ∧
          N ≤ ((list.countP fun x => decide (e.pubDate < x.pubDate)) : Int)
      · rw [if_pos ((hany e he).mpr ((hmemc e he).mpr hcond)), if_pos hcond]
        rfl
      · rw [if_neg fun h => hcond ((hmemc e he).mp ((hany e he).mp h)), if_neg hcond]
    · intro e he hdl hc
      have hedrop : e ∈ sorted.drop N.toNat := (hmemc e he).mpr ⟨hdl, hc⟩
      rw [hres, snd_foldl_cleanupEpisode]
      have hfind : (fsa.filter fun p =>
          !((sorted.drop N.toNat).any fun x =>
            artifactPath feedID name x.id == p.1)).find?
          (fun p => p.1 == artifactPath feedID name e.id) = none := by
        rw [List.find?_eq_none]
        intro x hx hbeq
        have hq := (List.mem_filter.mp hx).2
        have hkey : x.1 = artifactPath feedID name e.id := by simpa using hbeq
        rw [Bool.not_eq_eq_eq_not, Bool.not_true, List.any_eq_false] at hq
        exact hq e hedrop (by simp [hkey])
      rw [artifactSize, hfind]
      rfl

/-- C7 witness: `keep_last = 2` over four downloaded episodes with
timestamps 1 < 2 < 3 < 4 cleans the two oldest (record mutated, artifact
gone) and keeps the two newest untouched. -/
theorem c7_cleanup_keep_last_witness :
    lookupEpisode (cleanup (some ⟨2⟩) "F" (fun id => id ++ ".mp3")
        [mkEpisode "e1" "t1" 1 .downloaded, mkEpisode "e2" "t2" 2 .downloaded,
          mkEpisode "e3" "t3" 3 .downloaded, mkEpisode "e4" "t4" 4 .downloaded]
        [("F/e1.mp3", 10), ("F/e2.mp3", 20), ("F/e3.mp3", 30), ("F/e4.mp3", 40)]).1
        "e1" = some (cleanMut (mkEpisode "e1" "t1" 1 .downloaded)) ∧
      lookupEpisode (cleanup (some ⟨2⟩) "F" (fun id => id ++ ".mp3")
        [mkEpisode "e1" "t1" 1 .downloaded, mkEpisode "e2" "t2" 2 .downloaded,
          mkEpisode "e3" "t3" 3 .downloaded, mkEpisode "e4" "t4" 4 .downloaded]
        [("F/e1.mp3", 10), ("F/e2.mp3", 20), ("F/e3.mp3", 30), ("F/e4.mp3", 40)]).1
        "e4" = some (mkEpisode "e4" "t4" 4 .downloaded) ∧
      artifactSize (cleanup (some ⟨2⟩) "F" (fun id => id ++ ".mp3")
        [mkEpisode "e1" "t1" 1 .downloaded, mkEpisode "e2" "t2" 2 .downloaded,
          mkEpisode "e3" "t3" 3 .downloaded, mkEpisode "e4" "t4" 4 .downloaded]
        [("F/e1.mp3", 10), ("F/e2.mp3", 20), ("F/e3.mp3", 30), ("F/e4.mp3", 40)]).2
        "F/e1.mp3" = none := by
  have h := c7_cleanup_keep_last "F" (fun id => id ++ ".mp3")
    [mkEpisode "e1" "t1" 1 .downloaded, mkEpisode "e2" "t2" 2 .downloaded,
      mkEpisode "e3" "t3" 3 .downloaded, mkEpisode "e4" "t4" 4 .downloaded]
    [("F/e1.mp3", 10), ("F/e2.mp3", 20), ("F/e3.mp3", 30), ("F/e4.mp3", 40)]
    2 (by decide) (by decide) (by decide)
  refine ⟨?_, ?_, ?_⟩
  · have h1 := h.1 (mkEpisode "e1" "t1" 1 .downloaded) (by decide)
    rw [if_pos (by constructor <;> decide)] at h1
    exact h1
  · have h4 := h.1 (mkEpisode "e4" "t4" 4 .downloaded) (by decide)
    rw [if_neg (by decide)] at h4
    exact h4
  · exact h.2.1 (mkEpisode "e1" "t1" 1 .downloaded) (by decide) (by decide) (by decide)

/-! ## Local artifact store `Create` (pkg/fs, `Local`) -/

/-- Primitive filesystem steps the local backend can perform. -/
inductive FsOp
  | mkdirAll (dir : String)
  | createFile (path : String)
  | writeChunk (path : String) (data : String)
  | closeFile (path : String)
  | renameFile (src dst : String)
  deriving DecidableEq, Repr

/-- `filepath.Dir`: the portion before the final separator. -/
def parentDir (path : String) : String :=
  String.intercalate "/" (path.splitOn "/").dropLast

/-- `Local.Create(name, reader)`: `os.MkdirAll(filepath.Dir(path))`,
then `copyFile` = `os.Create(path)` followed by the streaming `io.Copy`
writes and the deferred close.  The reader is modelled as the list of
chunks `io.Copy` moves; the result is the trace of filesystem steps and
the byte count `io.Copy` reports. -/
def LocalCreate (rootDir name : String) (chunks : List String) : List FsOp × Int :=
  (FsOp.mkdirAll (parentDir (rootDir ++ "/" ++ name)) ::
      FsOp.createFile (rootDir ++ "/" ++ name) ::
      (chunks.map (FsOp.writeChunk (rootDir ++ "/" ++ name)) ++
        [FsOp.closeFile (rootDir ++ "/" ++ name)]),
    ((chunks.map String.length).sum : Int))

/-- Observable file contents, path → data. -/
abbrev FileSys := List (String × String)

def getFile (fs : FileSys) (path : String) : Option String :=
  (fs.find? fun p => p.1 == path).map (·.2)

def setFile (fs : FileSys) (path content : String) : FileSys :=
  if fs.any (fun p => p.1 == path) then
    fs.map fun p => if p.1 == path then (path, content) else p
  else fs ++ [(path, content)]

/-- Effect of one filesystem step on observable contents: `os.Create`
truncates, writes append, rename moves contents atomically. -/
def applyFsOp (fs : FileSys) : FsOp → FileSys
  | .mkdirAll _ => fs
  | .createFile p => setFile fs p ""
  | .writeChunk p d =>
    match getFile fs p with
    | some c => setFile fs p (c ++ d)
    | none => fs
  | .closeFile _ => fs
  | .renameFile src dst =>
    match getFile fs src with
    | some c => setFile (fs.filter fun q => !(q.1 == src)) dst c
    | none => fs

def applyFsOps (fs : FileSys) (ops : List FsOp) : FileSys := ops.foldl applyFsOp fs

/-- Concatenation of a chunk stream. -/
def strConcat (l : List String) : String := l.foldr (· ++ ·) ""

/-- Modelled from the spec: "writers use temp-and-rename (local
backend) for atomicity" (spec §5) — a trace writes `finalPath` via
temp-and-rename when no create or write ever targets `finalPath` itself
and the data arrives there through a rename. -/
def writesViaTempAndRename (trace : List FsOp) (finalPath : String) : Bool :=
  (trace.all fun op =>
    match op with
    | .createFile p => p != finalPath
    | .writeChunk p _ => p != finalPath
    | _ => true) &&
  (trace.any fun op =>
    match op with
    | .renameFile _ dst => dst == finalPath
    | _ => false)

/-- C8 counterexample: `Local.Create` of the two chunks "ab", "cd" at
`f1/ep.mp3` performs no rename and writes the destination directly;
after the first chunk the destination holds "ab" — neither absent nor
the full "abcd" — so a partially written artifact is observable at the
final path. -/
theorem c8_counterexample_direct_write :
    writesViaTempAndRename (LocalCreate "/data" "f1/ep.mp3" ["ab", "cd"]).1
        "/data/f1/ep.mp3" = false ∧
      getFile (applyFsOps []
          ((LocalCreate "/data" "f1/ep.mp3" ["ab", "cd"]).1.take 3))
          "/data/f1/ep.mp3" = some "ab" ∧
      some "ab" ≠ some ("ab" ++ "cd") ∧ some "ab" ≠ (none : Option String) := by
  refine ⟨by decide, by decide, by decide, by decide⟩

theorem applyFsOps_writeChunks (path c : String) (chunks : List String) :
    applyFsOps [(path, c)] (chunks.map (FsOp.writeChunk path)) =
      [(path, c ++ strConcat chunks)] := by
  induction chunks generalizing c with
  | nil => simp [applyFsOps, strConcat]
  | cons d rest ih =>
    simp only [List.map_cons, applyFsOps, List.foldl_cons]
    have h1 : applyFsOp [(path, c)] (FsOp.writeChunk path d) = [(path, c ++ d)] := by
      simp [applyFsOp, getFile, setFile]
    rw [h1]
    have h2 := ih (c ++ d)
    rw [applyFsOps] at h2
    rw [h2]
    show [(path, c ++ d ++ strConcat rest)] = [(path, c ++ (d ++ strConcat rest))]
    rw [String.append_assoc]

/-- C8 (amended): the local `Create` streams straight into the final
path — mkdir the parent, truncate/create the destination itself, append
each chunk there, no temporary file, no rename.  After `k` chunks the
destination is observable with exactly the first `k` chunks (a proper
partial artifact whenever `0 < k < |chunks|`); after the whole trace it
holds the full data, and the returned size is the total byte count. -/
theorem c8_create_writes_directly (rootDir name : String) (chunks : List String)
    (k : Nat) (hk : k ≤ chunks.length) :
    ((LocalCreate rootDir name chunks).1.all fun op =>
        match op with
        | .renameFile _ _ => false
        | _ => true) = true ∧
      getFile (applyFsOps [] ((LocalCreate rootDir name chunks).1.take (2 + k)))
          (rootDir ++ "/" ++ name) = some (strConcat (chunks.take k)) ∧
      getFile (applyFsOps [] (LocalCreate rootDir name chunks).1)
          (rootDir ++ "/" ++ name) = some (strConcat chunks) ∧
      (LocalCreate rootDir name chunks).2 = ((chunks.map String.length).sum : Int) := by
  have hops_cons : ∀ (fs : FileSys) (op : FsOp) (ops : List FsOp),
      applyFsOps fs (op :: ops) = applyFsOps (applyFsOp fs op) ops := fun _ _ _ => rfl
  have hops_append : ∀ (fs : FileSys) (l₁ l₂ : List FsOp),
      applyFsOps fs (l₁ ++ l₂) = applyFsOps (applyFsOps fs l₁) l₂ := fun fs l₁ l₂ =>
    List.foldl_append applyFsOp fs l₁ l₂
  have hc2 : applyFsOp (applyFsOp []
        (FsOp.mkdirAll (parentDir (rootDir ++ "/" ++ name))))
        (FsOp.createFile (rootDir ++ "/" ++ name)) = [(rootDir ++ "/" ++ name, "")] := by
    simp [applyFsOp, setFile]
  refine ⟨?_, ?_, ?_, rfl⟩
  · simp only [LocalCreate, List.all_cons, List.all_append, List.all_map]
    simp
  · have htake : (LocalCreate rootDir name chunks).1.take (2 + k) =
        FsOp.mkdirAll (parentDir (rootDir ++ "/" ++ name)) ::
          FsOp.createFile (rootDir ++ "/" ++ name) ::
          (chunks.take k).map (FsOp.writeChunk (rootDir ++ "/" ++ name)) := by
      simp only [LocalCreate]
      rw [show 2 + k = k + 1 + 1 from by omega]
      simp only [List.take_succ_cons]
      rw [List.take_append_of_le_length (by simpa using hk), ← List.map_take]
    rw [htake, hops_cons, hops_cons, hc2, applyFsOps_writeChunks]
    simp [getFile]
  · simp only [LocalCreate]
    rw [hops_cons, hops_cons, hc2, hops_append, applyFsOps_writeChunks]
    simp [applyFsOps, applyFsOp, getFile]

/-- C8 witness: the amended statement at root `/data`, episode path
`f1/ep.mp3`, chunks "ab", "cd", observed after the first chunk. -/
theorem c8_create_writes_directly_witness :
    getFile (applyFsOps [] ((LocalCreate "/data" "f1/ep.mp3" ["ab", "cd"]).1.take 3))
        ("/data" ++ "/" ++ "f1/ep.mp3") = some (strConcat (["ab", "cd"].take 1)) ∧
      getFile (applyFsOps [] (LocalCreate "/data" "f1/ep.mp3" ["ab", "cd"]).1)
        ("/data" ++ "/" ++ "f1/ep.mp3") = some (strConcat ["ab", "cd"]) :=
  ⟨(c8_create_writes_directly "/data" "f1/ep.mp3" ["ab", "cd"] 1 (by decide)).2.1,
    (c8_create_writes_directly "/data" "f1/ep.mp3" ["ab", "cd"] 1 (by decide)).2.2.1⟩

/-! ## Stage 3 download loop and history close-out (`Manager`, services/update) -/

/-- Insert-or-replace on a string-keyed association list (the shape of
`fs.Create` on the artifact store). -/
def putArtifact (fsa : Artifacts) (path : String) (size : Int) : Artifacts :=
  if fsa.any (fun p => p.1 == path) then
    fsa.map fun p => if p.1 == path then (path, size) else p
  else fsa ++ [(path, size)]

/-- Outcome of one `Downloader.Download` call: a finished artifact of
the given size, the `ErrTooManyRequests` sentinel, or any other
failure. -/
inductive DownloadResult
  | ok (size : Int)
  | tooManyRequests
  | failure (msg : String)
  deriving DecidableEq, Repr

/-- The `UpdateEpisode` mutator `ep.Status = <st>`. -/
def setStatus (st : EpisodeStatus) (e : Episode) : Episode := { e with status := st }

/-- The `UpdateEpisode` mutator `episode.Size = <sz>; episode.Status = downloaded`. -/
def setDownloaded (sz : Int) (e : Episode) : Episode :=
  { e with size := sz, status := EpisodeStatus.downloaded }

/-- The `UpdateEpisode` mutator `episode.Status = error; episode.Error = <msg>`. -/
def setFailed (msg : String) (e : Episode) : Episode :=
  { e with status := EpisodeStatus.err, errMsg := msg }

theorem setStatus_id (st : EpisodeStatus) (e : Episode) : (setStatus st e).id = e.id := rfl

theorem setDownloaded_id (sz : Int) (e : Episode) : (setDownloaded sz e).id = e.id := rfl

theorem setFailed_id (msg : String) (e : Episode) : (setFailed msg e).id = e.id := rfl

/-- The per-candidate loop of `Manager.downloadEpisodes`.  In order: if
the artifact already exists (`fs.Size` succeeds) record its size and
mark `downloaded`; otherwise mark `downloading` and invoke the
downloader — `ErrTooManyRequests` breaks out of the loop, any other
error marks the episode `error` with its message and continues, and
success commits the artifact (`fs.Create`), then marks `downloaded`
with the written size.  (The progress-tracker calls are volatile state,
modelled separately by `Tracker`.) -/
def downloadLoop (feedID : String) (name : String → String)
    (dl : String → DownloadResult) :
    EpisodeTable × Artifacts → List Episode → EpisodeTable × Artifacts
  | s, [] => s
  | (t, fsa), ep :: rest =>
    match artifactSize fsa (artifactPath feedID name ep.id) with
    | some size =>
      downloadLoop feedID name dl
        (UpdateEpisode t ep.id (setDownloaded size), fsa) rest
    | none =>
      match dl ep.id with
      | DownloadResult.tooManyRequests =>
        (UpdateEpisode t ep.id (setStatus EpisodeStatus.downloading), fsa)
      | DownloadResult.failure msg =>
        downloadLoop feedID name dl
          (UpdateEpisode
            (UpdateEpisode t ep.id (setStatus EpisodeStatus.downloading))
            ep.id (setFailed msg), fsa) rest
      | DownloadResult.ok size =>
        downloadLoop feedID name dl
          (UpdateEpisode
            (UpdateEpisode t ep.id (setStatus EpisodeStatus.downloading))
            ep.id (setDownloaded size),
            putArtifact fsa (artifactPath feedID name ep.id) size) rest

/-- The pre-loop pass of `downloadEpisodes`: mark every candidate
`queued` in storage. -/
def markQueued (t : EpisodeTable) (downloadList : List Episode) : EpisodeTable :=
  downloadList.foldl
    (fun acc ep => UpdateEpisode acc ep.id (setStatus EpisodeStatus.queued)) t

/-- `Manager.downloadEpisodes`: return early on an empty list,
otherwise queue everything and run the loop. -/
def downloadEpisodes (feedID : String) (name : String → String)
    (dl : String → DownloadResult) (t : EpisodeTable) (fsa : Artifacts)
    (downloadList : List Episode) : EpisodeTable × Artifacts :=
  if downloadList.length = 0 then (t, fsa)
  else downloadLoop feedID name dl (markQueued t downloadList, fsa) downloadList

/-- `Manager.collectEpisodeStats`' result triple. -/
structure EpisodeStats where
  downloaded : Int
  failed : Int
  bytesDownloaded : Int
  deriving DecidableEq, Repr

/-- `Manager.collectEpisodeStats`: count downloaded/error records and
downloaded bytes among the given episode IDs (missing records are
skipped). -/
def collectEpisodeStats (t : EpisodeTable) (ids : List String) : EpisodeStats :=
  ids.foldl
    (fun stats id =>
      match lookupEpisode t id with
      | none => stats
      | some e =>
        match e.status with
        | EpisodeStatus.downloaded =>
          { stats with
              downloaded := stats.downloaded + 1
              bytesDownloaded := stats.bytesDownloaded + e.size }
        | EpisodeStatus.err => { stats with failed := stats.failed + 1 }
        | _ => stats)
    ⟨0, 0, 0⟩

/-- `model.JobStatistics` (the counters the run writes). -/
structure JobStatistics where
  episodesQueued : Int
  episodesDownloaded : Int
  episodesFailed : Int
  bytesDownloaded : Int
  deriving DecidableEq, Repr

/-- Everything `Manager.Update` leaves behind after the download list
is fixed: storage, artifact store, and the history close-out. -/
structure RunResult where
  episodes : EpisodeTable
  artifacts : Artifacts
  historyStatus : String
  stats : JobStatistics
  historyError : String
  deriving DecidableEq, Repr

/-- `Manager.Update` from the point the download list is fixed:
`downloadEpisodesWithStats` (stat diff around `downloadEpisodes`, whose
return value is discarded), `cleanup`, `buildXML` (writes
`<feedID>.xml` through the artifact store; the document bytes are not
modelled, only the write), `buildOPML` (writes `podsync.opml`), then
the status decision — `partial` iff both failures and downloads,
`failed` iff failures only, otherwise `success` — and
`LogFeedUpdateEndWithEpisodes(status, stats, errMsg="")`. -/
def updateRun (feedID : String) (name : String → String)
    (dl : String → DownloadResult) (clean : Option CleanupPolicy)
    (t : EpisodeTable) (fsa : Artifacts) (downloadList : List Episode) : RunResult :=
  let ids := downloadList.map (·.id)
  let initial := collectEpisodeStats t ids
  let dres := downloadEpisodes feedID name dl t fsa downloadList
  let final := collectEpisodeStats dres.1 ids
  let stats : JobStatistics :=
    { episodesQueued := (downloadList.length : Int),
      episodesDownloaded := final.downloaded - initial.downloaded,
      episodesFailed := final.failed - initial.failed,
      bytesDownloaded := final.bytesDownloaded - initial.bytesDownloaded }
  let cres := cleanup clean feedID name dres.1 dres.2
  { episodes := cres.1,
    artifacts := putArtifact (putArtifact cres.2 (feedID ++ ".xml") 0) "podsync.opml" 0,
    historyStatus :=
      if stats.episodesFailed > 0 ∧ stats.episodesDownloaded > 0 then "partial"
      else if stats.episodesFailed > 0 then "failed" else "success",
    stats := stats,
    historyError := "" }

/-- The concrete rate-limit scenario: A succeeds (100 bytes), B hits
the `TooManyRequests` sentinel, C is never attempted. -/
def dlScenario : String → DownloadResult := fun id =>
  if id == "a" then DownloadResult.ok 100
  else if id == "b" then DownloadResult.tooManyRequests
  else DownloadResult.ok 50

/-- C2 counterexample: in the A/B/C rate-limit run, B does **not** keep
`status=queued` — it was set to `downloading` before the download call
and the `break` leaves it there — and the history entry closes as
`success` (the spec's own rule: `failed == 0`), not `partial`. -/
theorem c2_counterexample_tmr_run :
    lookupEpisode (updateRun "F" (fun id => id ++ ".mp3") dlScenario none
        [mkEpisode "a" "A" 1 .new, mkEpisode "b" "B" 2 .new, mkEpisode "c" "C" 3 .new]
        [] [mkEpisode "a" "A" 1 .new, mkEpisode "b" "B" 2 .new,
          mkEpisode "c" "C" 3 .new]).episodes "b" =
      some { mkEpisode "b" "B" 2 .new with status := EpisodeStatus.downloading } ∧
      EpisodeStatus.downloading ≠ EpisodeStatus.queued ∧
      (updateRun "F" (fun id => id ++ ".mp3") dlScenario none
        [mkEpisode "a" "A" 1 .new, mkEpisode "b" "B" 2 .new, mkEpisode "c" "C" 3 .new]
        [] [mkEpisode "a" "A" 1 .new, mkEpisode "b" "B" 2 .new,
          mkEpisode "c" "C" 3 .new]).historyStatus = "success" ∧
      "success" ≠ "partial" := by
  refine ⟨by decide, by decide, by decide, by decide⟩

theorem find?_replace_ne {α : Type} (l : List (String × α)) (p q : String) (v : α)
    (hq : q ≠ p) :
    ((l.map fun x => if x.1 == p then (p, v) else x).find? fun x => x.1 == q) =
      l.find? fun x => x.1 == q := by
  induction l with
  | nil => rfl
  | cons x l ih =>
    by_cases hx : x.1 = p
    · have hxp : (x.1 == p) = true := by simp [hx]
      have h1 : ((p, v).1 == q) = false := beq_eq_false_iff_ne.mpr (Ne.symm hq)
      have h2 : (x.1 == q) = false := by
        rw [hx]
        exact beq_eq_false_iff_ne.mpr (Ne.symm hq)
      simp only [List.map_cons, hxp, if_pos, List.find?_cons, h1, h2]
      exact ih
    · have hxp : (x.1 == p) = false := beq_eq_false_iff_ne.mpr hx
      by_cases hxq : x.1 = q
      · have h1 : (x.1 == q) = true := by simp [hxq]
        simp only [List.map_cons, hxp, Bool.false_eq_true, if_neg, not_false_eq_true,
          List.find?_cons, h1]
      · have h1 : (x.1 == q) = false := beq_eq_false_iff_ne.mpr hxq
        simp only [List.map_cons, hxp, Bool.false_eq_true, if_neg, not_false_eq_true,
          List.find?_cons, h1]
        exact ih

theorem find?_replace_self {α : Type} (l : List (String × α)) (p : String) (v : α)
    (hany : (l.any fun x => x.1 == p) = true) :
    ((l.map fun x => if x.1 == p then (p, v) else x).find? fun x => x.1 == p) =
      some (p, v) := by
  induction l with
  | nil => simp at hany
  | cons x l ih =>
    by_cases hx : x.1 = p
    · simp [List.find?_cons, hx]
    · have hxp : (x.1 == p) = false := beq_eq_false_iff_ne.mpr hx
      rw [List.any_cons, hxp, Bool.false_or] at hany
      simp only [List.map_cons, hxp, Bool.false_eq_true, if_neg, not_false_eq_true,
        List.find?_cons, hxp]
      exact ih hany

/-- `fs.Create` on the artifact store, characterised per path. -/
theorem artifactSize_putArtifact (fsa : Artifacts) (p q : String) (s : Int) :
    artifactSize (putArtifact fsa p s) q =
      if q = p then some s else artifactSize fsa q := by
  unfold putArtifact artifactSize
  by_cases hany : (fsa.any fun x => x.1 == p) = true
  · rw [if_pos hany]
    by_cases hq : q = p
    · rw [if_pos hq, hq, find?_replace_self fsa p s hany]
      rfl
    · rw [if_neg hq, find?_replace_ne fsa p q s hq]
  · rw [if_neg hany]
    by_cases hq : q = p
    · have hnone : (fsa.find? fun x => x.1 == q) = none := by
        rw [List.find?_eq_none]
        intro x hx hbeq
        exact hany (List.any_eq_true.mpr ⟨x, hx, by rw [← hq]; exact hbeq⟩)
      rw [if_pos hq, List.find?_append, hnone]
      have hone : ([(p, s)].find? fun x => x.1 == q) = some (p, s) := by
        simp [List.find?_cons, hq]
      simp [hone]
    · rw [if_neg hq, List.find?_append]
      cases hfl : fsa.find? fun x => x.1 == q with
      | some y => simp [hfl]
      | none =>
        have : ([(p, s)].find? fun x => x.1 == q) = none := by
          simp [List.find?_cons, beq_eq_false_iff_ne.mpr (Ne.symm hq)]
        simp [hfl, this]

/-- C2 (amended): when the downloader succeeds on candidate A (`s`
bytes) and returns the `TooManyRequests` sentinel on B, no further
candidate is attempted and the run still publishes: A ends
`downloaded` with size `s`, B ends `downloading` (it was marked
`downloading` before the download call and the break leaves it there —
not `queued` as the claim said), C keeps `queued`, the feed XML is
still rebuilt, and the history entry closes with statistics
`{queued=3, downloaded=1, failed=0, bytes=s}` and an empty error — with
final status `success`, not `partial`, because `failed == 0`. -/
theorem c2_too_many_requests_halts (feedID : String) (name : String → String)
    (dl : String → DownloadResult) (t : EpisodeTable) (fsa : Artifacts)
    (A B C : Episode) (s : Int)
    (hids : (t.map (·.id)).Nodup)
    (hA : A ∈ t) (hB : B ∈ t) (hC : C ∈ t)
    (hAs : A.status = EpisodeStatus.new) (hBs : B.status = EpisodeStatus.new)
    (hCs : C.status = EpisodeStatus.new)
    (hAB : A.id ≠ B.id) (hAC : A.id ≠ C.id) (hBC : B.id ≠ C.id)
    (hAfresh : artifactSize fsa (artifactPath feedID name A.id) = none)
    (hBfresh : artifactSize fsa (artifactPath feedID name B.id) = none)
    (hpBA : artifactPath feedID name B.id ≠ artifactPath feedID name A.id)
    (hdlA : dl A.id = DownloadResult.ok s)
    (hdlB : dl B.id = DownloadResult.tooManyRequests) :
    lookupEpisode (updateRun feedID name dl none t fsa [A, B, C]).episodes A.id =
        some { A with size := s, status := EpisodeStatus.downloaded } ∧
      lookupEpisode (updateRun feedID name dl none t fsa [A, B, C]).episodes B.id =
        some { B with status := EpisodeStatus.downloading } ∧
      lookupEpisode (updateRun feedID name dl none t fsa [A, B, C]).episodes C.id =
        some { C with status := EpisodeStatus.queued } ∧
      (artifactSize (updateRun feedID name dl none t fsa [A, B, C]).artifacts
        (feedID ++ ".xml")).isSome = true ∧
      (updateRun feedID name dl none t fsa [A, B, C]).historyStatus = "success" ∧
      (updateRun feedID name dl none t fsa [A, B, C]).stats =
        ⟨3, 1, 0, s⟩ ∧
      (updateRun feedID name dl none t fsa [A, B, C]).historyError = "" := by
  have hlA : lookupEpisode t A.id = some A := lookupEpisode_of_mem_nodup hids hA
  have hlB : lookupEpisode t B.id = some B := lookupEpisode_of_mem_nodup hids hB
  have hlC : lookupEpisode t C.id = some C := lookupEpisode_of_mem_nodup hids hC
  have hq_id := setStatus_id EpisodeStatus.queued
  have hd_id := setStatus_id EpisodeStatus.downloading
  have hok_id := setDownloaded_id s
  -- the queued table
  have hmq : markQueued t [A, B, C] =
      UpdateEpisode (UpdateEpisode (UpdateEpisode t A.id
          (setStatus EpisodeStatus.queued)) B.id
          (setStatus EpisodeStatus.queued)) C.id
          (setStatus EpisodeStatus.queued) := rfl
  have hQA : lookupEpisode (markQueued t [A, B, C]) A.id =
      some { A with status := EpisodeStatus.queued } := by
    rw [hmq, lookupEpisode_UpdateEpisode _ _ _ _ hq_id, if_neg (Ne.symm hAC),
      lookupEpisode_UpdateEpisode _ _ _ _ hq_id, if_neg (Ne.symm hAB),
      lookupEpisode_UpdateEpisode _ _ _ _ hq_id, if_pos rfl, hlA]
    rfl
  have hQB : lookupEpisode (markQueued t [A, B, C]) B.id =
      some { B with status := EpisodeStatus.queued } := by
    rw [hmq, lookupEpisode_UpdateEpisode _ _ _ _ hq_id, if_neg (Ne.symm hBC),
      lookupEpisode_UpdateEpisode _ _ _ _ hq_id, if_pos rfl,
      lookupEpisode_UpdateEpisode _ _ _ _ hq_id, if_neg hAB, hlB]
    rfl
  have hQC : lookupEpisode (markQueued t [A, B, C]) C.id =
      some { C with status := EpisodeStatus.queued } := by
    rw [hmq, lookupEpisode_UpdateEpisode _ _ _ _ hq_id, if_pos rfl,
      lookupEpisode_UpdateEpisode _ _ _ _ hq_id, if_neg hBC,
      lookupEpisode_UpdateEpisode _ _ _ _ hq_id, if_neg hAC, hlC]
    rfl
  -- the loop: A succeeds, B breaks
  have hB2 : artifactSize (putArtifact fsa (artifactPath feedID name A.id) s)
      (artifactPath feedID name B.id) = none := by
    rw [artifactSize_putArtifact, if_neg hpBA]
    exact hBfresh
  have hloop : downloadLoop feedID name dl (markQueued t [A, B, C], fsa) [A, B, C] =
      (UpdateEpisode
        (UpdateEpisode
          (UpdateEpisode (markQueued t [A, B, C]) A.id
            (setStatus EpisodeStatus.downloading))
          A.id (setDownloaded s))
        B.id (setStatus EpisodeStatus.downloading),
        putArtifact fsa (artifactPath feedID name A.id) s) := by
    simp only [downloadLoop, hAfresh, hdlA, hB2, hdlB]
  have hdeq : (downloadEpisodes feedID name dl t fsa [A, B, C]) =
      downloadLoop feedID name dl (markQueued t [A, B, C], fsa) [A, B, C] := by
    rw [downloadEpisodes, if_neg (by simp)]
  -- lookups in the final table
  have hFA : lookupEpisode (downloadEpisodes feedID name dl t fsa [A, B, C]).1 A.id =
      some { A with size := s, status := EpisodeStatus.downloaded } := by
    rw [hdeq, hloop]
    rw [lookupEpisode_UpdateEpisode _ _ _ _ hd_id, if_neg (Ne.symm hAB),
      lookupEpisode_UpdateEpisode _ _ _ _ hok_id, if_pos rfl,
      lookupEpisode_UpdateEpisode _ _ _ _ hd_id, if_pos rfl, hQA]
    rfl
  have hFB : lookupEpisode (downloadEpisodes feedID name dl t fsa [A, B, C]).1 B.id =
      some { B with status := EpisodeStatus.downloading } := by
    rw [hdeq, hloop]
    rw [lookupEpisode_UpdateEpisode _ _ _ _ hd_id, if_pos rfl,
      lookupEpisode_UpdateEpisode _ _ _ _ hok_id, if_neg hAB,
      lookupEpisode_UpdateEpisode _ _ _ _ hd_id, if_neg hAB, hQB]
    rfl
  have hFC : lookupEpisode (downloadEpisodes feedID name dl t fsa [A, B, C]).1 C.id =
      some { C with status := EpisodeStatus.queued } := by
    rw [hdeq, hloop]
    rw [lookupEpisode_UpdateEpisode _ _ _ _ hd_id, if_neg hBC,
      lookupEpisode_UpdateEpisode _ _ _ _ hok_id, if_neg hAC,
      lookupEpisode_UpdateEpisode _ _ _ _ hd_id, if_neg hAC, hQC]
  -- statistics
  have hinit : collectEpisodeStats t [A.id, B.id, C.id] = ⟨0, 0, 0⟩ := by
    simp only [collectEpisodeStats, List.foldl_cons, List.foldl_nil, hlA, hlB, hlC,
      hAs, hBs, hCs]
  have hfin : collectEpisodeStats (downloadEpisodes feedID name dl t fsa [A, B, C]).1
      [A.id, B.id, C.id] = ⟨1, 0, s⟩ := by
    simp only [collectEpisodeStats, List.foldl_cons, List.foldl_nil, hFA, hFB, hFC]
    simp
  have hstats : (updateRun feedID name dl none t fsa [A, B, C]).stats = ⟨3, 1, 0, s⟩ := by
    have hs0 : (updateRun feedID name dl none t fsa [A, B, C]).stats =
        { episodesQueued := (([A, B, C].length : Nat) : Int),
          episodesDownloaded :=
            (collectEpisodeStats (downloadEpisodes feedID name dl t fsa [A, B, C]).1
              [A.id, B.id, C.id]).downloaded -
            (collectEpisodeStats t [A.id, B.id, C.id]).downloaded,
          episodesFailed :=
            (collectEpisodeStats (downloadEpisodes feedID name dl t fsa [A, B, C]).1
              [A.id, B.id, C.id]).failed -
            (collectEpisodeStats t [A.id, B.id, C.id]).failed,
          bytesDownloaded :=
            (collectEpisodeStats (downloadEpisodes feedID name dl t fsa [A, B, C]).1
              [A.id, B.id, C.id]).bytesDownloaded -
            (collectEpisodeStats t [A.id, B.id, C.id]).bytesDownloaded } := rfl
    rw [hs0, hinit, hfin]
    simp
  have hstatus : (updateRun feedID name dl none t fsa [A, B, C]).historyStatus =
      "success" := by
    have hs1 : (updateRun feedID name dl none t fsa [A, B, C]).historyStatus =
        (if (updateRun feedID name dl none t fsa [A, B, C]).stats.episodesFailed > 0 ∧
            (updateRun feedID name dl none t fsa [A, B, C]).stats.episodesDownloaded > 0
          then "partial"
          else if (updateRun feedID name dl none t fsa [A, B, C]).stats.episodesFailed > 0
          then "failed" else "success") := rfl
    rw [hs1, hstats]
    norm_num
  have heps : (updateRun feedID name dl none t fsa [A, B, C]).episodes =
      (downloadEpisodes feedID name dl t fsa [A, B, C]).1 := rfl
  refine ⟨by rw [heps]; exact hFA, by rw [heps]; exact hFB, by rw [heps]; exact hFC,
    ?_, hstatus, hstats, rfl⟩
  have hart : (updateRun feedID name dl none t fsa [A, B, C]).artifacts =
      putArtifact (putArtifact (downloadEpisodes feedID name dl t fsa [A, B, C]).2
        (feedID ++ ".xml") 0) "podsync.opml" 0 := rfl
  rw [hart, artifactSize_putArtifact]
  by_cases hx : feedID ++ ".xml" = "podsync.opml"
  · rw [if_pos hx]
    rfl
  · rw [if_neg hx, artifactSize_putArtifact, if_pos rfl]
    rfl

/-- C2 amended-claim witness: the concrete A/B/C run satisfies every
conclusion of the amended statement. -/
theorem c2_too_many_requests_halts_witness :
    lookupEpisode (updateRun "F" (fun id => id ++ ".mp3") dlScenario none
        [mkEpisode "a" "A" 1 .new, mkEpisode "b" "B" 2 .new, mkEpisode "c" "C" 3 .new]
        [] [mkEpisode "a" "A" 1 .new, mkEpisode "b" "B" 2 .new,
          mkEpisode "c" "C" 3 .new]).episodes "a" =
      some { mkEpisode "a" "A" 1 .new with
        size := 100
        status := EpisodeStatus.downloaded } ∧
      (updateRun "F" (fun id => id ++ ".mp3") dlScenario none
        [mkEpisode "a" "A" 1 .new, mkEpisode "b" "B" 2 .new, mkEpisode "c" "C" 3 .new]
        [] [mkEpisode "a" "A" 1 .new, mkEpisode "b" "B" 2 .new,
          mkEpisode "c" "C" 3 .new]).stats = ⟨3, 1, 0, 100⟩ := by
  have h := c2_too_many_requests_halts "F" (fun id => id ++ ".mp3") dlScenario
    [mkEpisode "a" "A" 1 .new, mkEpisode "b" "B" 2 .new, mkEpisode "c" "C" 3 .new] []
    (mkEpisode "a" "A" 1 .new) (mkEpisode "b" "B" 2 .new) (mkEpisode "c" "C" 3 .new)
    100 (by decide) (by decide) (by decide) (by decide) rfl rfl rfl (by decide)
    (by decide) (by decide) rfl rfl (by decide) rfl rfl
  exact ⟨h.1, h.2.2.2.2.2.1⟩

/-! ## Progress tracker (pkg/progress) -/

/-- Generic read/insert-or-replace/delete on a Go map modelled as a
string-keyed association list. -/
def getAssoc {α : Type} (l : List (String × α)) (k : String) : Option α :=
  (l.find? fun p => p.1 == k).map (·.2)

def setAssoc {α : Type} (l : List (String × α)) (k : String) (v : α) :
    List (String × α) :=
  if l.any (fun p => p.1 == k) then l.map fun p => if p.1 == k then (k, v) else p
  else l ++ [(k, v)]

def delAssoc {α : Type} (l : List (String × α)) (k : String) : List (String × α) :=
  l.filter fun p => !(p.1 == k)

theorem getAssoc_setAssoc {α : Type} (l : List (String × α)) (k k' : String) (v : α) :
    getAssoc (setAssoc l k v) k' = if k' = k then some v else getAssoc l k' := by
  unfold setAssoc getAssoc
  by_cases hany : (l.any fun x => x.1 == k) = true
  · rw [if_pos hany]
    by_cases hk : k' = k
    · rw [if_pos hk, hk, find?_replace_self l k v hany]
      rfl
    · rw [if_neg hk, find?_replace_ne l k k' v hk]
  · rw [if_neg hany]
    by_cases hk : k' = k
    · have hnone : (l.find? fun x => x.1 == k') = none := by
        rw [List.find?_eq_none]
        intro x hx hbeq
        exact hany (List.any_eq_true.mpr ⟨x, hx, by rw [← hk]; exact hbeq⟩)
      rw [if_pos hk, List.find?_append, hnone]
      have hone : ([(k, v)].find? fun x => x.1 == k') = some (k, v) := by
        simp [List.find?_cons, hk]
      simp [hone]
    · rw [if_neg hk, List.find?_append]
      cases hfl : l.find? fun x => x.1 == k' with
      | some y => simp [hfl]
      | none =>
        have hone : ([(k, v)].find? fun x => x.1 == k') = none := by
          simp [List.find?_cons, beq_eq_false_iff_ne.mpr (Ne.symm hk)]
        simp [hfl, hone]

theorem getAssoc_mem {α : Type} {l : List (String × α)} {k : String} {v : α}
    (h : getAssoc l k = some v) : (k, v) ∈ l := by
  unfold getAssoc at h
  cases hf : l.find? fun p => p.1 == k with
  | none => rw [hf] at h; cases h
  | some p =>
    rw [hf] at h
    have hp : p.2 = v := by simpa using h
    have hmem := List.mem_of_find?_eq_some hf
    have hkey : p.1 = k := by simpa using List.find?_some hf
    have : p = (k, v) := by
      cases p
      simp at hp hkey
      simp [hp, hkey]
    rwa [this] at hmem

theorem getAssoc_none_iff_not_any {α : Type} (l : List (String × α)) (k : String) :
    getAssoc l k = none ↔ (l.any fun p => p.1 == k) = false := by
  unfold getAssoc
  rw [Option.map_eq_none', List.find?_eq_none, List.any_eq_false]

/-- With duplicate-free keys, any entry whose key is `k` carries the
value `getAssoc` returns. -/
theorem mem_eq_of_getAssoc {α : Type} {l : List (String × α)}
    (hnodup : (l.map (·.1)).Nodup) {k : String} {v v' : α}
    (hget : getAssoc l k = some v) (hmem : (k, v') ∈ l) : v' = v := by
  induction l with
  | nil => cases hmem
  | cons q l ih =>
    rw [List.map_cons, List.nodup_cons] at hnodup
    by_cases hq : q.1 = k
    · have hqv : q.2 = v := by
        unfold getAssoc at hget
        rw [List.find?_cons, show (q.1 == k) = true by simp [hq]] at hget
        simpa using hget
      rcases List.mem_cons.mp hmem with hh | ht
      · rw [← hh] at hqv
        exact hqv
      · exact absurd (hq ▸ List.mem_map.mpr ⟨(k, v'), ht, rfl⟩) hnodup.1
    · have hget' : getAssoc l k = some v := by
        unfold getAssoc at hget ⊢
        rwa [List.find?_cons, show (q.1 == k) = false from beq_eq_false_iff_ne.mpr hq]
          at hget
      rcases List.mem_cons.mp hmem with hh | ht
      · exact absurd (congrArg Prod.fst hh.symm) hq
      · exact ih hnodup.2 hget' ht

/-- Every entry of `setAssoc l k v` is the new `(k, v)` or an old entry
with a different key. -/
theorem mem_setAssoc {α : Type} {l : List (String × α)} {k : String} {v : α}
    {p : String × α} (hp : p ∈ setAssoc l k v) : p = (k, v) ∨ (p ∈ l ∧ p.1 ≠ k) := by
  unfold setAssoc at hp
  by_cases hany : (l.any fun x => x.1 == k) = true
  · rw [if_pos hany] at hp
    rcases List.mem_map.mp hp with ⟨q, hq, hqe⟩
    by_cases hqk : q.1 = k
    · left
      rw [← hqe, show (q.1 == k) = true by simp [hqk]]
      simp
    · right
      rw [← hqe, show (q.1 == k) = false from beq_eq_false_iff_ne.mpr hqk]
      simp [hq, hqk]
  · rw [if_neg hany] at hp
    rcases List.mem_append.mp hp with hl | hr
    · right
      refine ⟨hl, fun hk => ?_⟩
      have hanyf : ∀ x ∈ l, ¬(x.1 == k) = true :=
        List.any_eq_false.mp (Bool.eq_false_iff.mpr hany)
      exact hanyf p hl (by simp [hk])
    · left
      simpa using hr

theorem keys_setAssoc_nodup {α : Type} {l : List (String × α)} (k : String) (v : α)
    (hnodup : (l.map (·.1)).Nodup) : ((setAssoc l k v).map (·.1)).Nodup := by
  unfold setAssoc
  by_cases hany : (l.any fun x => x.1 == k) = true
  · rw [if_pos hany]
    have hmap : ((l.map fun p => if p.1 == k then (k, v) else p).map (·.1)) =
        l.map (·.1) := by
      rw [List.map_map]
      apply List.map_congr_left
      intro q _
      by_cases hq : q.1 = k
      · simp [hq]
      · simp [hq]
    rwa [hmap]
  · rw [if_neg hany, List.map_append]
    rw [List.nodup_append]
    refine ⟨hnodup, by simp, ?_⟩
    intro x hx
    simp only [List.map_cons, List.map_nil, List.mem_singleton]
    intro hxk
    have hanyf : ∀ q ∈ l, ¬(q.1 == k) = true :=
      List.any_eq_false.mp (Bool.eq_false_iff.mpr hany)
    rcases List.mem_map.mp hx with ⟨q, hq, hqe⟩
    exact hanyf q hq (by simp [hqe, hxk])

theorem keys_delAssoc_nodup {α : Type} {l : List (String × α)} (k : String)
    (hnodup : (l.map (·.1)).Nodup) : ((delAssoc l k).map (·.1)).Nodup :=
  ((List.filter_sublist l).map (·.1)).nodup hnodup

/-- `progress.EpisodeProgress` (the wall-clock `StartTime` and
`LastUpdateTime` are omitted; `Percent` is `ℚ` for the Go `float64`). -/
structure EpisodeProgress where
  feedID : String
  episodeID : String
  episodeTitle : String
  stage : String
  percent : ℚ
  downloaded : Int
  total : Int
  speed : String
  deriving DecidableEq, Repr

/-- `progress.FeedProgress` (again without `StartTime`). -/
structure FeedProgress where
  feedID : String
  totalEpisodes : Int
  completedCount : Int
  downloadingCount : Int
  queuedCount : Int
  overallPercent : ℚ
  deriving DecidableEq, Repr

/-- `progress.Tracker`: `feedID → FeedProgress` and
`feedID + "/" + episodeID → EpisodeProgress`. -/
structure Tracker where
  feedProgress : List (String × FeedProgress)
  episodeProgress : List (String × EpisodeProgress)
  deriving DecidableEq, Repr

def Tracker.empty : Tracker := ⟨[], []⟩

/-- The episode-map key `feedID + "/" + episodeID`. -/
def epKey (feedID episodeID : String) : String := feedID ++ "/" ++ episodeID

/-- `Tracker.updateFeedPercent`: zero total short-circuits to 0;
otherwise `(completed + Σ matching episodes' percent/100) / total × 100`. -/
def updateFeedPercent (eps : List (String × EpisodeProgress)) (fp : FeedProgress) :
    FeedProgress :=
  if fp.totalEpisodes = 0 then { fp with overallPercent := 0 }
  else
    { fp with overallPercent :=
        ((fp.completedCount : ℚ) +
            ((eps.filter fun p => p.2.feedID == fp.feedID).map
              fun p => p.2.percent / 100).sum) /
          (fp.totalEpisodes : ℚ) * 100 }

/-- One mutating call on the tracker. -/
inductive TrackerOp
  | initFeed (feedID : String) (totalEpisodes : Int)
  | queueEpisodes (feedID : String) (count : Int)
  | startEpisode (feedID episodeID episodeTitle : String)
  | updateEpisode (feedID episodeID stage : String) (percent : ℚ)
      (downloaded total : Int) (speed : String)
  | completeEpisode (feedID episodeID : String)
  | clearFeed (feedID : String)
  deriving DecidableEq, Repr

/-- The tracker's lock-protected mutators, exactly as in the source:
`InitFeedProgress` overwrites the feed entry with zeroed counters;
`QueueEpisodes` adds to the queued counter and recomputes the percent;
`StartEpisode` inserts the episode entry (stage `downloading`,
percent 0), increments downloading, decrements queued if positive, and
recomputes; `UpdateEpisode` overwrites the instantaneous fields
(creating the entry if missing) without recomputing the feed percent;
`CompleteEpisode` removes the entry, decrements downloading if
positive, increments completed, and recomputes; `ClearFeed` drops the
feed entry and every episode entry carrying its feed ID. -/
def applyTrackerOp (t : Tracker) : TrackerOp → Tracker
  | .initFeed f n =>
    let fp0 : FeedProgress :=
      { feedID := f, totalEpisodes := n, completedCount := 0,
        downloadingCount := 0, queuedCount := 0, overallPercent := 0 }
    { t with feedProgress := setAssoc t.feedProgress f fp0 }
  | .queueEpisodes f n =>
    match getAssoc t.feedProgress f with
    | none => t
    | some fp =>
      let fp' := updateFeedPercent t.episodeProgress
        { fp with queuedCount := fp.queuedCount + n }
      { t with feedProgress := setAssoc t.feedProgress f fp' }
  | .startEpisode f e title =>
    let ep0 : EpisodeProgress :=
      { feedID := f, episodeID := e, episodeTitle := title, stage := "downloading",
        percent := 0, downloaded := 0, total := 0, speed := "" }
    let eps := setAssoc t.episodeProgress (epKey f e) ep0
    match getAssoc t.feedProgress f with
    | none => { t with episodeProgress := eps }
    | some fp =>
      let fp' := updateFeedPercent eps
        { fp with
            downloadingCount := fp.downloadingCount + 1
            queuedCount :=
              if fp.queuedCount > 0 then fp.queuedCount - 1 else fp.queuedCount }
      { feedProgress := setAssoc t.feedProgress f fp', episodeProgress := eps }
  | .updateEpisode f e stage percent dl tot speed =>
    match getAssoc t.episodeProgress (epKey f e) with
    | some ep =>
      let ep' : EpisodeProgress :=
        { ep with
            stage := stage
            percent := percent
            downloaded := dl
            total := tot
            speed := speed }
      { t with episodeProgress := setAssoc t.episodeProgress (epKey f e) ep' }
    | none =>
      let ep' : EpisodeProgress :=
        { feedID := f, episodeID := e, episodeTitle := "", stage := stage,
          percent := percent, downloaded := dl, total := tot, speed := speed }
      { t with episodeProgress := setAssoc t.episodeProgress (epKey f e) ep' }
  | .completeEpisode f e =>
    let eps := delAssoc t.episodeProgress (epKey f e)
    match getAssoc t.feedProgress f with
    | none => { t with episodeProgress := eps }
    | some fp =>
      let fp' := updateFeedPercent eps
        { fp with
            downloadingCount :=
              if fp.downloadingCount > 0 then fp.downloadingCount - 1
              else fp.downloadingCount
            completedCount := fp.completedCount + 1 }
      { feedProgress := setAssoc t.feedProgress f fp', episodeProgress := eps }
  | .clearFeed f =>
    { feedProgress := delAssoc t.feedProgress f,
      episodeProgress := t.episodeProgress.filter fun p => !(p.2.feedID == f) }

def applyTrackerOps (t : Tracker) (ops : List TrackerOp) : Tracker :=
  ops.foldl applyTrackerOp t

/-- The claim's invariant over every `FeedProgress` held by the
tracker: `completed + downloading ≤ total` and
`overall_percent ∈ [0, 100]`. -/
def feedInvariantHolds (t : Tracker) : Bool :=
  t.feedProgress.all fun p =>
    decide (p.2.completedCount + p.2.downloadingCount ≤ p.2.totalEpisodes) &&
      decide (0 ≤ p.2.overallPercent) && decide (p.2.overallPercent ≤ 100)

/-- C4 counterexample: the raw operation sequence
`InitFeedProgress("f", 0); StartEpisode("f", "e", "")` leaves the feed
with `completed + downloading = 1 > 0 = total_episodes`, so the
invariant does not hold after *every* sequence of tracker operations. -/
theorem c4_counterexample_start_beyond_total :
    feedInvariantHolds (applyTrackerOps Tracker.empty
      [TrackerOp.initFeed "f" 0, TrackerOp.startEpisode "f" "e" ""]) = false := by
  decide

/-- Number of in-flight episode records of feed `f`. -/
def epCount (eps : List (String × EpisodeProgress)) (f : String) : Nat :=
  (eps.filter fun p => p.2.feedID == f).length

/-- Σ percent/100 over feed `f`'s in-flight episode records (the loop
body of `updateFeedPercent`). -/
def sumPercents (eps : List (String × EpisodeProgress)) (f : String) : ℚ :=
  ((eps.filter fun p => p.2.feedID == f).map fun p => p.2.percent / 100).sum

theorem sumPercents_nonneg (eps : List (String × EpisodeProgress)) (f : String)
    (h : ∀ p ∈ eps, 0 ≤ p.2.percent) : 0 ≤ sumPercents eps f := by
  apply List.sum_nonneg
  intro x hx
  rcases List.mem_map.mp hx with ⟨p, hp, rfl⟩
  have h0 := h p (List.mem_filter.mp hp).1
  positivity

theorem sumPercents_le (eps : List (String × EpisodeProgress)) (f : String)
    (h : ∀ p ∈ eps, p.2.percent ≤ 100) : sumPercents eps f ≤ (epCount eps f : ℚ) := by
  unfold sumPercents epCount
  have hle : ∀ p ∈ eps.filter fun p => p.2.feedID == f, p.2.percent / 100 ≤ (1 : ℚ) := by
    intro p hp
    have h100 := h p (List.mem_filter.mp hp).1
    linarith
  calc ((eps.filter fun p => p.2.feedID == f).map fun p => p.2.percent / 100).sum
      ≤ ((eps.filter fun p => p.2.feedID == f).map fun p => p.2.percent / 100).length •
          (1 : ℚ) := by
        apply List.sum_le_card_nsmul
        intro x hx
        rcases List.mem_map.mp hx with ⟨p, hp, rfl⟩
        exact hle p hp
    _ = ((eps.filter fun p => p.2.feedID == f).length : ℚ) := by simp

/-- `updateFeedPercent` touches only `overallPercent`. -/
theorem updateFeedPercent_fields (eps : List (String × EpisodeProgress))
    (fp : FeedProgress) :
    (updateFeedPercent eps fp).feedID = fp.feedID ∧
      (updateFeedPercent eps fp).totalEpisodes = fp.totalEpisodes ∧
      (updateFeedPercent eps fp).completedCount = fp.completedCount ∧
      (updateFeedPercent eps fp).downloadingCount = fp.downloadingCount ∧
      (updateFeedPercent eps fp).queuedCount = fp.queuedCount := by
  unfold updateFeedPercent
  by_cases h0 : fp.totalEpisodes = 0 <;> simp [h0]

/-- The recomputed `overallPercent` stays in `[0, 100]` whenever the
counters are consistent with the episode table and every in-flight
percent is in `[0, 100]`. -/
theorem updateFeedPercent_bounds (eps : List (String × EpisodeProgress))
    (fp : FeedProgress) (hc : 0 ≤ fp.completedCount)
    (hd : fp.completedCount + (epCount eps fp.feedID : Int) ≤ fp.totalEpisodes)
    (hp : ∀ p ∈ eps, 0 ≤ p.2.percent ∧ p.2.percent ≤ 100) :
    0 ≤ (updateFeedPercent eps fp).overallPercent ∧
      (updateFeedPercent eps fp).overallPercent ≤ 100 := by
  unfold updateFeedPercent
  by_cases h0 : fp.totalEpisodes = 0
  · rw [if_pos h0]
    norm_num
  · rw [if_neg h0]
    show (0 ≤ ((fp.completedCount : ℚ) + sumPercents eps fp.feedID) /
        (fp.totalEpisodes : ℚ) * 100) ∧
      ((fp.completedCount : ℚ) + sumPercents eps fp.feedID) /
        (fp.totalEpisodes : ℚ) * 100 ≤ 100
    have htotal : 0 < fp.totalEpisodes := by
      have hcount : (0 : Int) ≤ (epCount eps fp.feedID : Int) := by positivity
      omega
    have hT : (0 : ℚ) < (fp.totalEpisodes : ℚ) := by exact_mod_cast htotal
    have hS0 : 0 ≤ sumPercents eps fp.feedID :=
      sumPercents_nonneg _ _ fun p hp' => (hp p hp').1
    have hSle : sumPercents eps fp.feedID ≤ (epCount eps fp.feedID : ℚ) :=
      sumPercents_le _ _ fun p hp' => (hp p hp').2
    have hcQ : (0 : ℚ) ≤ (fp.completedCount : ℚ) := by exact_mod_cast hc
    have hnumle : (fp.completedCount : ℚ) + sumPercents eps fp.feedID ≤
        (fp.totalEpisodes : ℚ) := by
      have h1 : (fp.completedCount : ℚ) + (epCount eps fp.feedID : ℚ) ≤
          (fp.totalEpisodes : ℚ) := by exact_mod_cast hd
      linarith
    constructor
    · positivity
    · rw [div_mul_eq_mul_div, div_le_iff₀ hT]
      nlinarith

theorem setAssoc_of_absent {α : Type} (l : List (String × α)) (k : String) (v : α)
    (h : getAssoc l k = none) : setAssoc l k v = l ++ [(k, v)] := by
  rw [getAssoc_none_iff_not_any] at h
  rw [setAssoc, if_neg (by simp [h])]

theorem any_of_getAssoc_some {α : Type} {l : List (String × α)} {k : String} {v : α}
    (h : getAssoc l k = some v) : (l.any fun p => p.1 == k) = true :=
  List.any_eq_true.mpr ⟨(k, v), getAssoc_mem h, by simp⟩

theorem epCount_append_single (eps : List (String × EpisodeProgress))
    (q : String × EpisodeProgress) (f : String) :
    epCount (eps ++ [q]) f = epCount eps f + (if q.2.feedID == f then 1 else 0) := by
  unfold epCount
  rw [List.filter_append]
  cases h : q.2.feedID == f <;> simp [List.filter_cons, h]

theorem epCount_map_replace (eps : List (String × EpisodeProgress)) (k : String)
    (v : EpisodeProgress) (h : ∀ q ∈ eps, q.1 = k → q.2.feedID = v.feedID)
    (f : String) :
    epCount (eps.map fun p => if p.1 == k then (k, v) else p) f = epCount eps f := by
  unfold epCount
  induction eps with
  | nil => rfl
  | cons q rest ih =>
    have ih' := ih fun x hx => h x (List.mem_cons_of_mem _ hx)
    by_cases hq : q.1 = k
    · have hfeed : q.2.feedID = v.feedID := h q (List.mem_cons_self _ _) hq
      rw [List.map_cons, if_pos (show (q.1 == k) = true by simp [hq]),
        List.filter_cons, List.filter_cons,
        show ((k, v).2.feedID == f) = (q.2.feedID == f) by rw [hfeed]]
      cases hqf : q.2.feedID == f
      · rw [if_neg (by simp), if_neg (by simp)]
        exact ih'
      · rw [if_pos rfl, if_pos rfl, List.length_cons, List.length_cons, ih']
    · rw [List.map_cons, if_neg (show ¬((q.1 == k) = true) by simp [hq]),
        List.filter_cons, List.filter_cons]
      cases hqf : q.2.feedID == f
      · rw [if_neg (by simp [hqf]), if_neg (by simp [hqf])]
        exact ih'
      · rw [if_pos (by simp [hqf]), if_pos (by simp [hqf]), List.length_cons,
          List.length_cons, ih']

theorem epCount_delAssoc (eps : List (String × EpisodeProgress)) (k : String)
    (hnodup : (eps.map (·.1)).Nodup) {ep : EpisodeProgress}
    (hget : getAssoc eps k = some ep) (f : String) :
    epCount eps f = epCount (delAssoc eps k) f + (if ep.feedID == f then 1 else 0) := by
  induction eps with
  | nil => simp [getAssoc] at hget
  | cons q rest ih =>
    rw [List.map_cons, List.nodup_cons] at hnodup
    by_cases hq : q.1 = k
    · have hep : q.2 = ep := by
        unfold getAssoc at hget
        rw [List.find?_cons, show (q.1 == k) = true by simp [hq]] at hget
        simpa using hget
      have hrest : delAssoc rest k = rest := by
        unfold delAssoc
        apply List.filter_eq_self.mpr
        intro x hx
        have hxk : x.1 ≠ k := fun hxe =>
          hnodup.1 (hq ▸ hxe ▸ List.mem_map.mpr ⟨x, hx, rfl⟩)
        simp [hxk]
      have hdel : delAssoc (q :: rest) k = rest := by
        unfold delAssoc
        rw [List.filter_cons, show (!(q.1 == k)) = false by simp [hq]]
        simpa [delAssoc] using hrest
      rw [hdel]
      unfold epCount
      rw [List.filter_cons, show (q.2.feedID == f) = (ep.feedID == f) by rw [hep]]
      cases hf : ep.feedID == f <;> simp [hf]
    · have hget' : getAssoc rest k = some ep := by
        unfold getAssoc at hget ⊢
        rwa [List.find?_cons,
          show (q.1 == k) = false from beq_eq_false_iff_ne.mpr hq] at hget
      have hdel : delAssoc (q :: rest) k = q :: delAssoc rest k := by
        unfold delAssoc
        rw [List.filter_cons, show (!(q.1 == k)) = true by
          simp [beq_eq_false_iff_ne.mpr hq], if_pos rfl]
      rw [hdel]
      unfold epCount
      rw [List.filter_cons, List.filter_cons]
      have ih' := ih hnodup.2 hget'
      unfold epCount at ih'
      cases hf : q.2.feedID == f <;> simp [hf, delAssoc] at ih' ⊢ <;> omega

/-- Episode records untouched by a feed-`f` filter, counted for another
feed `g ≠ f`. -/
theorem epCount_filter_other (eps : List (String × EpisodeProgress)) (f g : String)
    (hfg : g ≠ f) :
    epCount (eps.filter fun p => !(p.2.feedID == f)) g = epCount eps g := by
  unfold epCount
  rw [List.filter_filter]
  congr 1
  apply List.filter_congr
  intro p _
  by_cases hg : p.2.feedID = g
  · simp [hg, hfg]
  · simp [hg]

/-- The state invariant the pipeline maintains on the tracker. -/
structure TrackerInv (t : Tracker) : Prop where
  feedKeys : ∀ p ∈ t.feedProgress, p.1 = p.2.feedID
  epKeys : ∀ p ∈ t.episodeProgress, p.1 = epKey p.2.feedID p.2.episodeID
  epPercent : ∀ p ∈ t.episodeProgress, 0 ≤ p.2.percent ∧ p.2.percent ≤ 100
  feedNodup : (t.feedProgress.map (·.1)).Nodup
  epNodup : (t.episodeProgress.map (·.1)).Nodup
  counts : ∀ p ∈ t.feedProgress,
    0 ≤ p.2.completedCount ∧
      p.2.downloadingCount = (epCount t.episodeProgress p.2.feedID : Int) ∧
      p.2.completedCount + p.2.downloadingCount ≤ p.2.totalEpisodes ∧
      0 ≤ p.2.overallPercent ∧ p.2.overallPercent ≤ 100

/-- The zeroed `FeedProgress` record `InitFeedProgress` installs. -/
def initFp (f : String) (n : Int) : FeedProgress :=
  { feedID := f, totalEpisodes := n, completedCount := 0,
    downloadingCount := 0, queuedCount := 0, overallPercent := 0 }

/-- The fresh `EpisodeProgress` record `StartEpisode` installs. -/
def startEp (f e title : String) : EpisodeProgress :=
  { feedID := f, episodeID := e, episodeTitle := title, stage := "downloading",
    percent := 0, downloaded := 0, total := 0, speed := "" }

/-- The counter updates the mutators apply to a `FeedProgress`, named
for use in the equation lemmas below. -/
def queueFp (fp : FeedProgress) (n : Int) : FeedProgress :=
  { fp with queuedCount := fp.queuedCount + n }

def startFp (fp : FeedProgress) : FeedProgress :=
  { fp with
      downloadingCount := fp.downloadingCount + 1
      queuedCount :=
        if fp.queuedCount > 0 then fp.queuedCount - 1 else fp.queuedCount }

def completeFp (fp : FeedProgress) : FeedProgress :=
  { fp with
      downloadingCount :=
        if fp.downloadingCount > 0 then fp.downloadingCount - 1
        else fp.downloadingCount
      completedCount := fp.completedCount + 1 }

/-- The field overwrite `UpdateEpisode` applies to an existing record. -/
def updEp (ep : EpisodeProgress) (stage : String) (percent : ℚ) (dl tot : Int)
    (speed : String) : EpisodeProgress :=
  { ep with
      stage := stage
      percent := percent
      downloaded := dl
      total := tot
      speed := speed }

theorem applyTrackerOp_initFeed (t : Tracker) (f : String) (n : Int) :
    applyTrackerOp t (TrackerOp.initFeed f n) =
      { t with feedProgress := setAssoc t.feedProgress f (initFp f n) } := rfl

theorem applyTrackerOp_clearFeed (t : Tracker) (f : String) :
    applyTrackerOp t (TrackerOp.clearFeed f) =
      { feedProgress := delAssoc t.feedProgress f,
        episodeProgress := t.episodeProgress.filter fun p => !(p.2.feedID == f) } :=
  rfl

theorem applyTrackerOp_queueEpisodes_none (t : Tracker) (f : String) (n : Int)
    (h : getAssoc t.feedProgress f = none) :
    applyTrackerOp t (TrackerOp.queueEpisodes f n) = t := by
  simp only [applyTrackerOp, h]

theorem applyTrackerOp_queueEpisodes_some (t : Tracker) (f : String) (n : Int)
    (fp : FeedProgress) (h : getAssoc t.feedProgress f = some fp) :
    applyTrackerOp t (TrackerOp.queueEpisodes f n) =
      { t with feedProgress :=
          setAssoc t.feedProgress f (updateFeedPercent t.episodeProgress (queueFp fp n)) } := by
  simp only [applyTrackerOp, h, queueFp]

theorem applyTrackerOp_startEpisode_none (t : Tracker) (f e title : String)
    (h : getAssoc t.feedProgress f = none) :
    applyTrackerOp t (TrackerOp.startEpisode f e title) =
      { t with episodeProgress :=
          setAssoc t.episodeProgress (epKey f e) (startEp f e title) } := by
  simp only [applyTrackerOp, h, startEp]

theorem applyTrackerOp_startEpisode_some (t : Tracker) (f e title : String)
    (fp : FeedProgress) (h : getAssoc t.feedProgress f = some fp) :
    applyTrackerOp t (TrackerOp.startEpisode f e title) =
      { feedProgress := setAssoc t.feedProgress f
          (updateFeedPercent
            (setAssoc t.episodeProgress (epKey f e) (startEp f e title))
            (startFp fp)),
        episodeProgress :=
          setAssoc t.episodeProgress (epKey f e) (startEp f e title) } := by
  simp only [applyTrackerOp, h, startEp, startFp]

theorem applyTrackerOp_updateEpisode_some (t : Tracker) (f e stage : String)
    (percent : ℚ) (dl tot : Int) (speed : String) (ep : EpisodeProgress)
    (h : getAssoc t.episodeProgress (epKey f e) = some ep) :
    applyTrackerOp t (TrackerOp.updateEpisode f e stage percent dl tot speed) =
      { t with episodeProgress :=
          setAssoc t.episodeProgress (epKey f e) (updEp ep stage percent dl tot speed) } := by
  simp only [applyTrackerOp, h, updEp]

theorem applyTrackerOp_completeEpisode_none (t : Tracker) (f e : String)
    (h : getAssoc t.feedProgress f = none) :
    applyTrackerOp t (TrackerOp.completeEpisode f e) =
      { t with episodeProgress := delAssoc t.episodeProgress (epKey f e) } := by
  simp only [applyTrackerOp, h]

theorem applyTrackerOp_completeEpisode_some (t : Tracker) (f e : String)
    (fp : FeedProgress) (h : getAssoc t.feedProgress f = some fp) :
    applyTrackerOp t (TrackerOp.completeEpisode f e) =
      { feedProgress := setAssoc t.feedProgress f
          (updateFeedPercent (delAssoc t.episodeProgress (epKey f e))
            (completeFp fp)),
        episodeProgress := delAssoc t.episodeProgress (epKey f e) } := by
  simp only [applyTrackerOp, h, completeFp]

/-- Every record of `delAssoc l k` is an old record with a different key. -/
theorem mem_delAssoc {α : Type} {l : List (String × α)} {k : String}
    {p : String × α} (hp : p ∈ delAssoc l k) : p ∈ l ∧ p.1 ≠ k := by
  unfold delAssoc at hp
  have h := List.mem_filter.mp hp
  refine ⟨h.1, ?_⟩
  simpa using h.2

/-- A stored episode record of feed `f` makes `epCount` positive. -/
theorem epCount_pos {eps : List (String × EpisodeProgress)} {k : String}
    {ep : EpisodeProgress} {f : String} (hmem : (k, ep) ∈ eps)
    (hf : ep.feedID = f) : 0 < epCount eps f := by
  unfold epCount
  exact List.length_pos.mpr (List.ne_nil_of_mem
    (List.mem_filter.mpr ⟨hmem, by simp [hf]⟩))

/-- When the feed map has no entry under key `f`, no stored
`FeedProgress` carries feed ID `f` (keys mirror the `FeedID` field). -/
theorem feedID_ne_of_getAssoc_none {t : Tracker}
    (hfk : ∀ p ∈ t.feedProgress, p.1 = p.2.feedID) {f : String}
    (hget : getAssoc t.feedProgress f = none) :
    ∀ p ∈ t.feedProgress, p.2.feedID ≠ f := by
  intro p hp hpf
  have hany := (getAssoc_none_iff_not_any _ _).mp hget
  exact List.any_eq_false.mp hany p hp (by simp [hfk p hp, hpf])

/-- The caller discipline under which the tracker is exercised by the
update pipeline: feeds are (re)initialised with a nonnegative total
while idle, an episode is started only when not already in flight and
under capacity, progress updates target an in-flight episode with a
percent in `[0, 100]`, and completion targets an in-flight episode of
the named feed. -/
def trackerPreHolds (t : Tracker) : TrackerOp → Bool
  | .initFeed f n => decide (0 ≤ n) && (epCount t.episodeProgress f == 0)
  | .queueEpisodes _ _ => true
  | .startEpisode f e _ =>
    (getAssoc t.episodeProgress (epKey f e)).isNone &&
      ((getAssoc t.feedProgress f).all fun fp =>
        decide (fp.completedCount + fp.downloadingCount < fp.totalEpisodes))
  | .updateEpisode f e _ percent _ _ _ =>
    (getAssoc t.episodeProgress (epKey f e)).isSome &&
      decide (0 ≤ percent) && decide (percent ≤ 100)
  | .completeEpisode f e =>
    (getAssoc t.episodeProgress (epKey f e)).map (fun ep => ep.feedID) == some f
  | .clearFeed _ => true

/-- An operation sequence each step of which meets its precondition in
the state it runs in. -/
inductive ValidOps : Tracker → List TrackerOp → Prop
  | nil (t : Tracker) : ValidOps t []
  | cons (t : Tracker) (op : TrackerOp) (ops : List TrackerOp)
      (hpre : trackerPreHolds t op = true)
      (hrest : ValidOps (applyTrackerOp t op) ops) : ValidOps t (op :: ops)

theorem trackerInv_initFeed (t : Tracker) (f : String) (n : Int)
    (hinv : TrackerInv t) (hn : 0 ≤ n) (h0 : epCount t.episodeProgress f = 0) :
    TrackerInv (applyTrackerOp t (TrackerOp.initFeed f n)) := by
  obtain ⟨hfk, hek, hperc, hfnd, hend, hcnt⟩ := hinv
  rw [applyTrackerOp_initFeed]
  refine ⟨?_, hek, hperc, keys_setAssoc_nodup _ _ hfnd, hend, ?_⟩
  · intro p hp
    rcases mem_setAssoc hp with hnew | ⟨hold, _⟩
    · subst hnew; rfl
    · exact hfk p hold
  · intro p hp
    rcases mem_setAssoc hp with hnew | ⟨hold, _⟩
    · subst hnew
      refine ⟨?_, ?_, ?_, ?_, ?_⟩
      · show (0 : Int) ≤ 0; omega
      · show (0 : Int) = (epCount t.episodeProgress f : Int)
        rw [h0]; rfl
      · show (0 : Int) + 0 ≤ n; omega
      · show (0 : ℚ) ≤ 0; norm_num
      · show (0 : ℚ) ≤ 100; norm_num
    · exact hcnt p hold

theorem trackerInv_queueEpisodes (t : Tracker) (f : String) (n : Int)
    (hinv : TrackerInv t) :
    TrackerInv (applyTrackerOp t (TrackerOp.queueEpisodes f n)) := by
  cases hget : getAssoc t.feedProgress f with
  | none => rw [applyTrackerOp_queueEpisodes_none t f n hget]; exact hinv
  | some fp =>
    obtain ⟨hfk, hek, hperc, hfnd, hend, hcnt⟩ := hinv
    rw [applyTrackerOp_queueEpisodes_some t f n fp hget]
    have hmemfp : (f, fp) ∈ t.feedProgress := getAssoc_mem hget
    have hfpf : fp.feedID = f := (hfk _ hmemfp).symm
    obtain ⟨hc1, hc2, hc3, hc4, hc5⟩ := hcnt _ hmemfp
    have hc1' : 0 ≤ fp.completedCount := hc1
    have hc2' : fp.downloadingCount =
        (epCount t.episodeProgress fp.feedID : Int) := hc2
    have hc3' : fp.completedCount + fp.downloadingCount ≤ fp.totalEpisodes := hc3
    have hfields := updateFeedPercent_fields t.episodeProgress (queueFp fp n)
    have hbounds := updateFeedPercent_bounds t.episodeProgress (queueFp fp n)
      hc1'
      (by show fp.completedCount + (epCount t.episodeProgress fp.feedID : Int) ≤
            fp.totalEpisodes
          omega)
      hperc
    refine ⟨?_, hek, hperc, keys_setAssoc_nodup _ _ hfnd, hend, ?_⟩
    · intro p hp
      rcases mem_setAssoc hp with hnew | ⟨hold, _⟩
      · subst hnew
        show f = (updateFeedPercent t.episodeProgress (queueFp fp n)).feedID
        rw [hfields.1]
        exact hfpf.symm
      · exact hfk p hold
    · intro p hp
      rcases mem_setAssoc hp with hnew | ⟨hold, _⟩
      · subst hnew
        refine ⟨?_, ?_, ?_, hbounds.1, hbounds.2⟩
        · show 0 ≤ (updateFeedPercent t.episodeProgress (queueFp fp n)).completedCount
          rw [hfields.2.2.1]
          exact hc1'
        · show (updateFeedPercent t.episodeProgress (queueFp fp n)).downloadingCount =
            (epCount t.episodeProgress
              (updateFeedPercent t.episodeProgress (queueFp fp n)).feedID : Int)
          rw [hfields.2.2.2.1, hfields.1]
          exact hc2'
        · show (updateFeedPercent t.episodeProgress (queueFp fp n)).completedCount +
              (updateFeedPercent t.episodeProgress (queueFp fp n)).downloadingCount ≤
            (updateFeedPercent t.episodeProgress (queueFp fp n)).totalEpisodes
          rw [hfields.2.2.1, hfields.2.2.2.1, hfields.2.1]
          exact hc3'
      · exact hcnt p hold

theorem trackerInv_startEpisode (t : Tracker) (f e title : String)
    (hinv : TrackerInv t)
    (habs : getAssoc t.episodeProgress (epKey f e) = none)
    (hcap : ∀ fp, getAssoc t.feedProgress f = some fp →
      fp.completedCount + fp.downloadingCount < fp.totalEpisodes) :
    TrackerInv (applyTrackerOp t (TrackerOp.startEpisode f e title)) := by
  obtain ⟨hfk, hek, hperc, hfnd, hend, hcnt⟩ := hinv
  have heps : setAssoc t.episodeProgress (epKey f e) (startEp f e title) =
      t.episodeProgress ++ [(epKey f e, startEp f e title)] :=
    setAssoc_of_absent _ _ _ habs
  have hek' : ∀ p ∈ setAssoc t.episodeProgress (epKey f e) (startEp f e title),
      p.1 = epKey p.2.feedID p.2.episodeID := by
    intro p hp
    rw [heps] at hp
    rcases List.mem_append.mp hp with h | h
    · exact hek p h
    · rw [List.mem_singleton] at h
      subst h
      rfl
  have hperc' : ∀ p ∈ setAssoc t.episodeProgress (epKey f e) (startEp f e title),
      0 ≤ p.2.percent ∧ p.2.percent ≤ 100 := by
    intro p hp
    rw [heps] at hp
    rcases List.mem_append.mp hp with h | h
    · exact hperc p h
    · rw [List.mem_singleton] at h
      subst h
      constructor
      · show (0 : ℚ) ≤ 0; norm_num
      · show (0 : ℚ) ≤ 100; norm_num
  have hnd' : ((setAssoc t.episodeProgress (epKey f e)
      (startEp f e title)).map (·.1)).Nodup := keys_setAssoc_nodup _ _ hend
  have hcount' : ∀ g,
      epCount (setAssoc t.episodeProgress (epKey f e) (startEp f e title)) g =
        epCount t.episodeProgress g + (if f == g then 1 else 0) := by
    intro g
    rw [heps, epCount_append_single]
    rfl
  cases hget : getAssoc t.feedProgress f with
  | none =>
    rw [applyTrackerOp_startEpisode_none t f e title hget]
    have hnof := feedID_ne_of_getAssoc_none hfk hget
    refine ⟨hfk, hek', hperc', hfnd, hnd', ?_⟩
    intro p hp
    obtain ⟨h1, h2, h3, h4, h5⟩ := hcnt p hp
    refine ⟨h1, ?_, h3, h4, h5⟩
    rw [hcount' p.2.feedID,
      show (f == p.2.feedID) = false from beq_eq_false_iff_ne.mpr
        fun hfe => hnof p hp hfe.symm]
    simpa using h2
  | some fp =>
    rw [applyTrackerOp_startEpisode_some t f e title fp hget]
    have hmemfp : (f, fp) ∈ t.feedProgress := getAssoc_mem hget
    have hfpf : fp.feedID = f := (hfk _ hmemfp).symm
    obtain ⟨hc1, hc2, hc3, hc4, hc5⟩ := hcnt _ hmemfp
    have hc1' : 0 ≤ fp.completedCount := hc1
    have hc2' : fp.downloadingCount = (epCount t.episodeProgress f : Int) := by
      have h := hc2
      rwa [show ((f, fp) : String × FeedProgress).2.feedID = f from hfpf] at h
    have hlt : fp.completedCount + fp.downloadingCount < fp.totalEpisodes :=
      hcap fp hget
    have hcountf :
        epCount (setAssoc t.episodeProgress (epKey f e) (startEp f e title)) f =
          epCount t.episodeProgress f + 1 := by
      rw [hcount' f]
      simp
    have hfields := updateFeedPercent_fields
      (setAssoc t.episodeProgress (epKey f e) (startEp f e title)) (startFp fp)
    have hbounds := updateFeedPercent_bounds
      (setAssoc t.episodeProgress (epKey f e) (startEp f e title)) (startFp fp)
      hc1'
      (by show fp.completedCount +
            (epCount (setAssoc t.episodeProgress (epKey f e)
              (startEp f e title)) fp.feedID : Int) ≤ fp.totalEpisodes
          rw [hfpf, hcountf]
          push_cast
          omega)
      hperc'
    refine ⟨?_, hek', hperc', keys_setAssoc_nodup _ _ hfnd, hnd', ?_⟩
    · intro p hp
      rcases mem_setAssoc hp with hnew | ⟨hold, _⟩
      · subst hnew
        show f = (updateFeedPercent (setAssoc t.episodeProgress (epKey f e)
            (startEp f e title)) (startFp fp)).feedID
        rw [hfields.1]
        exact hfpf.symm
      · exact hfk p hold
    · intro p hp
      rcases mem_setAssoc hp with hnew | ⟨hold, hkne⟩
      · subst hnew
        refine ⟨?_, ?_, ?_, hbounds.1, hbounds.2⟩
        · show 0 ≤ (updateFeedPercent (setAssoc t.episodeProgress (epKey f e)
              (startEp f e title)) (startFp fp)).completedCount
          rw [hfields.2.2.1]
          exact hc1'
        · show (updateFeedPercent (setAssoc t.episodeProgress (epKey f e)
              (startEp f e title)) (startFp fp)).downloadingCount =
            (epCount (setAssoc t.episodeProgress (epKey f e) (startEp f e title))
              (updateFeedPercent (setAssoc t.episodeProgress (epKey f e)
                (startEp f e title)) (startFp fp)).feedID : Int)
          rw [hfields.2.2.2.1, hfields.1]
          show fp.downloadingCount + 1 =
            (epCount (setAssoc t.episodeProgress (epKey f e) (startEp f e title))
              fp.feedID : Int)
          rw [hfpf, hcountf]
          push_cast
          omega
        · show (updateFeedPercent (setAssoc t.episodeProgress (epKey f e)
                (startEp f e title)) (startFp fp)).completedCount +
              (updateFeedPercent (setAssoc t.episodeProgress (epKey f e)
                (startEp f e title)) (startFp fp)).downloadingCount ≤
            (updateFeedPercent (setAssoc t.episodeProgress (epKey f e)
              (startEp f e title)) (startFp fp)).totalEpisodes
          rw [hfields.2.2.1, hfields.2.2.2.1, hfields.2.1]
          show fp.completedCount + (fp.downloadingCount + 1) ≤ fp.totalEpisodes
          omega
      · obtain ⟨h1, h2, h3, h4, h5⟩ := hcnt p hold
        refine ⟨h1, ?_, h3, h4, h5⟩
        have hpne : p.2.feedID ≠ f := by rw [← hfk p hold]; exact hkne
        rw [hcount' p.2.feedID,
          show (f == p.2.feedID) = false from beq_eq_false_iff_ne.mpr
            fun hfe => hpne hfe.symm]
        simpa using h2

theorem trackerInv_updateEpisode (t : Tracker) (f e stage : String)
    (percent : ℚ) (dl tot : Int) (speed : String) (hinv : TrackerInv t)
    (ep : EpisodeProgress)
    (hget : getAssoc t.episodeProgress (epKey f e) = some ep)
    (h0 : 0 ≤ percent) (h100 : percent ≤ 100) :
    TrackerInv
      (applyTrackerOp t (TrackerOp.updateEpisode f e stage percent dl tot speed)) := by
  obtain ⟨hfk, hek, hperc, hfnd, hend, hcnt⟩ := hinv
  rw [applyTrackerOp_updateEpisode_some t f e stage percent dl tot speed ep hget]
  have hkeyfeed : ∀ q ∈ t.episodeProgress, q.1 = epKey f e →
      q.2.feedID = (updEp ep stage percent dl tot speed).feedID := by
    intro q hq hqk
    have hmem : (epKey f e, q.2) ∈ t.episodeProgress := by
      rw [← hqk]; exact hq
    have hq2 : q.2 = ep := mem_eq_of_getAssoc hend hget hmem
    rw [hq2]
    rfl
  have hset : setAssoc t.episodeProgress (epKey f e)
      (updEp ep stage percent dl tot speed) =
      t.episodeProgress.map fun p =>
        if p.1 == epKey f e then (epKey f e, updEp ep stage percent dl tot speed)
        else p := by
    unfold setAssoc
    rw [if_pos (any_of_getAssoc_some hget)]
  refine ⟨hfk, ?_, ?_, hfnd, keys_setAssoc_nodup _ _ hend, ?_⟩
  · intro p hp
    rw [hset] at hp
    rcases List.mem_map.mp hp with ⟨q, hq, hqe⟩
    by_cases hqk : q.1 = epKey f e
    · rw [← hqe, if_pos (show (q.1 == epKey f e) = true by simp [hqk])]
      have hmem : (epKey f e, q.2) ∈ t.episodeProgress := by
        rw [← hqk]; exact hq
      have hq2 : q.2 = ep := mem_eq_of_getAssoc hend hget hmem
      have hkey := hek q hq
      rw [hqk, hq2] at hkey
      exact hkey
    · rw [← hqe, if_neg (show ¬((q.1 == epKey f e) = true) by simp [hqk])]
      exact hek q hq
  · intro p hp
    rw [hset] at hp
    rcases List.mem_map.mp hp with ⟨q, hq, hqe⟩
    by_cases hqk : q.1 = epKey f e
    · rw [← hqe, if_pos (show (q.1 == epKey f e) = true by simp [hqk])]
      exact ⟨h0, h100⟩
    · rw [← hqe, if_neg (show ¬((q.1 == epKey f e) = true) by simp [hqk])]
      exact hperc q hq
  · intro p hp
    obtain ⟨h1, h2, h3, h4, h5⟩ := hcnt p hp
    refine ⟨h1, ?_, h3, h4, h5⟩
    rw [hset, epCount_map_replace t.episodeProgress (epKey f e) _ hkeyfeed]
    exact h2

theorem trackerInv_completeEpisode (t : Tracker) (f e : String)
    (hinv : TrackerInv t) (ep : EpisodeProgress)
    (hget : getAssoc t.episodeProgress (epKey f e) = some ep)
    (hepf : ep.feedID = f) :
    TrackerInv (applyTrackerOp t (TrackerOp.completeEpisode f e)) := by
  obtain ⟨hfk, hek, hperc, hfnd, hend, hcnt⟩ := hinv
  have hmemep : (epKey f e, ep) ∈ t.episodeProgress := getAssoc_mem hget
  have hcntf : epCount t.episodeProgress f =
      epCount (delAssoc t.episodeProgress (epKey f e)) f + 1 := by
    have h := epCount_delAssoc t.episodeProgress (epKey f e) hend hget f
    rwa [show (ep.feedID == f) = true by simp [hepf], if_pos rfl] at h
  have hcntg : ∀ g, g ≠ f →
      epCount (delAssoc t.episodeProgress (epKey f e)) g =
        epCount t.episodeProgress g := by
    intro g hg
    have h := epCount_delAssoc t.episodeProgress (epKey f e) hend hget g
    rw [show (ep.feedID == g) = false from beq_eq_false_iff_ne.mpr
      (by rw [hepf]; exact fun hh => hg hh.symm)] at h
    simp at h
    omega
  have hek' : ∀ p ∈ delAssoc t.episodeProgress (epKey f e),
      p.1 = epKey p.2.feedID p.2.episodeID :=
    fun p hp => hek p (mem_delAssoc hp).1
  have hperc' : ∀ p ∈ delAssoc t.episodeProgress (epKey f e),
      0 ≤ p.2.percent ∧ p.2.percent ≤ 100 :=
    fun p hp => hperc p (mem_delAssoc hp).1
  have hnd' := keys_delAssoc_nodup (epKey f e) hend
  cases hgetf : getAssoc t.feedProgress f with
  | none =>
    rw [applyTrackerOp_completeEpisode_none t f e hgetf]
    have hnof := feedID_ne_of_getAssoc_none hfk hgetf
    refine ⟨hfk, hek', hperc', hfnd, hnd', ?_⟩
    intro p hp
    obtain ⟨h1, h2, h3, h4, h5⟩ := hcnt p hp
    refine ⟨h1, ?_, h3, h4, h5⟩
    rw [hcntg p.2.feedID (hnof p hp)]
    exact h2
  | some fp =>
    rw [applyTrackerOp_completeEpisode_some t f e fp hgetf]
    have hmemfp : (f, fp) ∈ t.feedProgress := getAssoc_mem hgetf
    have hfpf : fp.feedID = f := (hfk _ hmemfp).symm
    obtain ⟨hc1, hc2, hc3, hc4, hc5⟩ := hcnt _ hmemfp
    have hc1' : 0 ≤ fp.completedCount := hc1
    have hc2' : fp.downloadingCount = (epCount t.episodeProgress f : Int) := by
      have h := hc2
      rwa [show ((f, fp) : String × FeedProgress).2.feedID = f from hfpf] at h
    have hc3' : fp.completedCount + fp.downloadingCount ≤ fp.totalEpisodes := hc3
    have hdpos : 0 < fp.downloadingCount := by
      rw [hc2']
      exact_mod_cast epCount_pos hmemep hepf
    have hdceq : (if fp.downloadingCount > 0 then fp.downloadingCount - 1
        else fp.downloadingCount) = fp.downloadingCount - 1 := if_pos hdpos
    have hcast : (epCount t.episodeProgress f : Int) =
        (epCount (delAssoc t.episodeProgress (epKey f e)) f : Int) + 1 := by
      exact_mod_cast hcntf
    have hfields := updateFeedPercent_fields
      (delAssoc t.episodeProgress (epKey f e)) (completeFp fp)
    have hbounds := updateFeedPercent_bounds
      (delAssoc t.episodeProgress (epKey f e)) (completeFp fp)
      (by show 0 ≤ fp.completedCount + 1; omega)
      (by show fp.completedCount + 1 +
            (epCount (delAssoc t.episodeProgress (epKey f e)) fp.feedID : Int) ≤
            fp.totalEpisodes
          rw [hfpf]
          omega)
      hperc'
    refine ⟨?_, hek', hperc', keys_setAssoc_nodup _ _ hfnd, hnd', ?_⟩
    · intro p hp
      rcases mem_setAssoc hp with hnew | ⟨hold, _⟩
      · subst hnew
        show f = (updateFeedPercent (delAssoc t.episodeProgress (epKey f e))
            (completeFp fp)).feedID
        rw [hfields.1]
        exact hfpf.symm
      · exact hfk p hold
    · intro p hp
      rcases mem_setAssoc hp with hnew | ⟨hold, hkne⟩
      · subst hnew
        refine ⟨?_, ?_, ?_, hbounds.1, hbounds.2⟩
        · show 0 ≤ (updateFeedPercent (delAssoc t.episodeProgress (epKey f e))
              (completeFp fp)).completedCount
          rw [hfields.2.2.1]
          show 0 ≤ fp.completedCount + 1
          omega
        · show (updateFeedPercent (delAssoc t.episodeProgress (epKey f e))
              (completeFp fp)).downloadingCount =
            (epCount (delAssoc t.episodeProgress (epKey f e))
              (updateFeedPercent (delAssoc t.episodeProgress (epKey f e))
                (completeFp fp)).feedID : Int)
          rw [hfields.2.2.2.1, hfields.1]
          show (if fp.downloadingCount > 0 then fp.downloadingCount - 1
              else fp.downloadingCount) =
            (epCount (delAssoc t.episodeProgress (epKey f e)) fp.feedID : Int)
          rw [hdceq, hfpf]
          omega
        · show (updateFeedPercent (delAssoc t.episodeProgress (epKey f e))
                (completeFp fp)).completedCount +
              (updateFeedPercent (delAssoc t.episodeProgress (epKey f e))
                (completeFp fp)).downloadingCount ≤
            (updateFeedPercent (delAssoc t.episodeProgress (epKey f e))
              (completeFp fp)).totalEpisodes
          rw [hfields.2.2.1, hfields.2.2.2.1, hfields.2.1]
          show fp.completedCount + 1 +
              (if fp.downloadingCount > 0 then fp.downloadingCount - 1
                else fp.downloadingCount) ≤ fp.totalEpisodes
          rw [hdceq]
          omega
      · obtain ⟨h1, h2, h3, h4, h5⟩ := hcnt p hold
        refine ⟨h1, ?_, h3, h4, h5⟩
        have hpne : p.2.feedID ≠ f := by rw [← hfk p hold]; exact hkne
        rw [hcntg p.2.feedID hpne]
        exact h2

theorem trackerInv_clearFeed (t : Tracker) (f : String) (hinv : TrackerInv t) :
    TrackerInv (applyTrackerOp t (TrackerOp.clearFeed f)) := by
  obtain ⟨hfk, hek, hperc, hfnd, hend, hcnt⟩ := hinv
  rw [applyTrackerOp_clearFeed]
  refine ⟨?_, ?_, ?_, keys_delAssoc_nodup _ hfnd, ?_, ?_⟩
  · intro p hp; exact hfk p (mem_delAssoc hp).1
  · intro p hp; exact hek p (List.mem_of_mem_filter hp)
  · intro p hp; exact hperc p (List.mem_of_mem_filter hp)
  · exact (List.Sublist.map (·.1)
      (List.filter_sublist t.episodeProgress)).nodup hend
  · intro p hp
    obtain ⟨hold, hne⟩ := mem_delAssoc hp
    obtain ⟨h1, h2, h3, h4, h5⟩ := hcnt p hold
    refine ⟨h1, ?_, h3, h4, h5⟩
    have hgne : p.2.feedID ≠ f := by rw [← hfk p hold]; exact hne
    rw [epCount_filter_other t.episodeProgress f p.2.feedID hgne]
    exact h2

/-- One tracker mutator run under its precondition preserves the
invariant. -/
theorem trackerInv_apply (t : Tracker) (op : TrackerOp) (hinv : TrackerInv t)
    (hpre : trackerPreHolds t op = true) : TrackerInv (applyTrackerOp t op) := by
  cases op with
  | initFeed f n =>
    simp only [trackerPreHolds, Bool.and_eq_true, decide_eq_true_eq,
      beq_iff_eq] at hpre
    exact trackerInv_initFeed t f n hinv hpre.1 hpre.2
  | queueEpisodes f n => exact trackerInv_queueEpisodes t f n hinv
  | startEpisode f e title =>
    simp only [trackerPreHolds, Bool.and_eq_true,
      Option.isNone_iff_eq_none] at hpre
    refine trackerInv_startEpisode t f e title hinv hpre.1 ?_
    intro fp hfp
    have h2 := hpre.2
    rw [hfp] at h2
    simpa using h2
  | updateEpisode f e stage percent dl tot speed =>
    simp only [trackerPreHolds, Bool.and_eq_true, decide_eq_true_eq,
      Option.isSome_iff_exists] at hpre
    obtain ⟨⟨⟨ep, hep⟩, h0⟩, h100⟩ := hpre
    exact trackerInv_updateEpisode t f e stage percent dl tot speed hinv ep hep
      h0 h100
  | completeEpisode f e =>
    rw [show trackerPreHolds t (TrackerOp.completeEpisode f e) =
        ((getAssoc t.episodeProgress (epKey f e)).map (fun ep => ep.feedID) ==
          some f) from rfl,
      beq_iff_eq] at hpre
    obtain ⟨ep, hget, hepf⟩ := Option.map_eq_some'.mp hpre
    exact trackerInv_completeEpisode t f e hinv ep hget hepf
  | clearFeed f => exact trackerInv_clearFeed t f hinv

/-- The invariant propagates through a valid operation sequence. -/
theorem trackerInv_applyOps (t : Tracker) (ops : List TrackerOp)
    (hv : ValidOps t ops) : TrackerInv t → TrackerInv (applyTrackerOps t ops) := by
  induction hv with
  | nil s => intro hinv; exact hinv
  | cons s op ops hpre hrest ih =>
    intro hinv
    exact ih (trackerInv_apply s op hinv hpre)

theorem trackerInv_empty : TrackerInv Tracker.empty := by
  refine ⟨?_, ?_, ?_, ?_, ?_, ?_⟩ <;> simp [Tracker.empty]

/-- The claim's per-feed inequalities follow from the invariant. -/
theorem feedInvariantHolds_of_inv (t : Tracker) (hinv : TrackerInv t) :
    feedInvariantHolds t = true := by
  unfold feedInvariantHolds
  rw [List.all_eq_true]
  intro p hp
  obtain ⟨h1, h2, h3, h4, h5⟩ := hinv.counts p hp
  simp [h3, h4, h5]

/-- C4 (amended): the raw mutators do not maintain the claimed
invariant unconditionally (see the `InitFeedProgress` total-0 then
`StartEpisode` counterexample); under the pipeline's calling
discipline — `InitFeedProgress` with a nonnegative total on an idle
feed, `StartEpisode` on a not-yet-started episode under capacity,
`UpdateEpisode` with a percent in `[0, 100]` on an in-flight episode,
and `CompleteEpisode` on an in-flight episode of the named feed —
every `FeedProgress` held by the tracker after any such sequence
satisfies `completed_count + downloading_count ≤ total_episodes` and
`overall_percent ∈ [0, 100]`; and whenever the total is nonzero,
`updateFeedPercent` recomputes the percent as
`(completed + Σ active.percent/100) / total × 100`. -/
theorem c4_tracker_invariant (ops : List TrackerOp)
    (hv : ValidOps Tracker.empty ops) :
    feedInvariantHolds (applyTrackerOps Tracker.empty ops) = true ∧
      ∀ (eps : List (String × EpisodeProgress)) (fp : FeedProgress),
        fp.totalEpisodes ≠ 0 →
        (updateFeedPercent eps fp).overallPercent =
          ((fp.completedCount : ℚ) + sumPercents eps fp.feedID) /
            (fp.totalEpisodes : ℚ) * 100 := by
  constructor
  · exact feedInvariantHolds_of_inv _
      (trackerInv_applyOps _ _ hv trackerInv_empty)
  · intro eps fp h0
    unfold updateFeedPercent
    rw [if_neg h0]
    rfl

/-- C4 witness: a concrete valid run — init total 2, queue 2, start,
progress to 50 %, complete, clear — ends with the invariant holding. -/
theorem c4_tracker_invariant_witness :
    feedInvariantHolds (applyTrackerOps Tracker.empty
      [TrackerOp.initFeed "f" 2, TrackerOp.queueEpisodes "f" 2,
        TrackerOp.startEpisode "f" "e1" "t",
        TrackerOp.updateEpisode "f" "e1" "downloading" 50 500 1000 "1MB/s",
        TrackerOp.completeEpisode "f" "e1",
        TrackerOp.clearFeed "f"]) = true :=
  (c4_tracker_invariant _
    (ValidOps.cons _ _ _ (by decide)
      (ValidOps.cons _ _ _ (by decide)
        (ValidOps.cons _ _ _ (by decide)
          (ValidOps.cons _ _ _ (by decide)
            (ValidOps.cons _ _ _ (by decide)
              (ValidOps.cons _ _ _ (by decide) (ValidOps.nil _)))))))).1

end Podsync
